import Mathlib

/-!
Verification development for the CMS-2 language server
(`cms2_semantic_parser.py` and `cms2_lsp_server.py`).

The Python sources are shallowly embedded: every Python function used by a
claim is translated into a computable Lean function over `List Char` /
`String`.  Python `dict`s are modelled as insertion-ordered association
lists (`AList`), matching CPython's key-order semantics; `dict` update
replaces the value in place, insertion appends.  Python's `re` patterns are
hand-compiled to deterministic scanners; wherever the pattern admits
backtracking, the accompanying comment records the backtracking trace of
CPython's engine that justifies the deterministic form.

Python mutates dataclass instances through shared references (the same
`TableDefinition` object can be reachable from `model.tables` and from a
`SYS-DD` block's own index).  The embedding is by value: mutations are
applied to the top-level registries, which are the structures all theorems
below read; per-block indexes are only ever inspected for their keys, on
which the value/reference distinction has no effect.
-/

namespace CMS2

/-! ## Python-compatible character and list-of-char utilities -/

/-- Python `str.isspace` characters relevant to `str.strip()` (ASCII set). -/
def pyIsSpace (c : Char) : Bool :=
  c = ' ' || c = '\t' || c = '\n' || c = '\r' || c = '\x0b' || c = '\x0c'

/-- Python `str.upper()` on one ASCII character (non-ASCII passes through;
    all inputs in this development are ASCII). -/
def upChar (c : Char) : Char :=
  if 'a' ≤ c ∧ c ≤ 'z' then Char.ofNat (c.toNat - 32) else c

/-- Python `str.upper()`. -/
def upStr (l : List Char) : List Char := l.map upChar

/-- `str.upper()` on a `String`. -/
def upperS (s : String) : String := ⟨upStr s.data⟩

/-- Python `str.strip()`: drop whitespace at both ends. -/
def strip (l : List Char) : List Char :=
  ((l.dropWhile pyIsSpace).reverse.dropWhile pyIsSpace).reverse

/-- `pre` is a prefix of `s` (exact characters). -/
def startsL : List Char → List Char → Bool
  | [], _ => true
  | _ :: _, [] => false
  | p :: ps, c :: cs => p = c && startsL ps cs

/-- Python `pat in s` substring containment. -/
def hasSub (pat : List Char) : List Char → Bool
  | [] => startsL pat []
  | c :: cs => startsL pat (c :: cs) || hasSub pat cs

/-- Python `s.split(sep)` for a one-character separator: `n` separators
    yield `n+1` (possibly empty) parts. -/
def splitOnChar (sep : Char) : List Char → List (List Char)
  | [] => [[]]
  | c :: cs =>
    if c = sep then [] :: splitOnChar sep cs
    else
      match splitOnChar sep cs with
      | [] => [[c]]
      | h :: t => (c :: h) :: t

/-- Regex character class `[A-Z]` under `re.IGNORECASE` (ASCII letter). -/
def isLetterCI (c : Char) : Bool :=
  ('A' ≤ c ∧ c ≤ 'Z') || ('a' ≤ c ∧ c ≤ 'z')

/-- ASCII digit. -/
def isDigitA (c : Char) : Bool := '0' ≤ c ∧ c ≤ '9'

/-- Regex class `[A-Z0-9_]` under `re.IGNORECASE`: identifier tail of the
    declaration patterns and of the server's word pattern. -/
def identTail (c : Char) : Bool := isLetterCI c || isDigitA c || c = '_'

/-- Regex class `[A-Z0-9]` under `re.IGNORECASE`: identifier tail of the
    hover pattern and of status-constant names (no underscore). -/
def hoverTail (c : Char) : Bool := isLetterCI c || isDigitA c

/-- Regex `\w` on ASCII text: letters, digits, underscore.  Used for `\b`
    word boundaries. -/
def wordChar (c : Char) : Bool := identTail c

/-- Decimal value of a digit run (Python `int` of a `\d+` group). -/
def natOfDigits (l : List Char) : Nat :=
  l.foldl (fun n c => n * 10 + (c.toNat - 48)) 0

/-! ## Association lists standing for CPython dicts -/

/-- Insertion-ordered string-keyed map.  CPython dicts have unique keys;
    states built by the embedded code preserve that, and the stated
    theorems hold with the operations below on all lists. -/
abbrev AList (α : Type) : Type := List (String × α)

/-- Python `m[k]` presence-respecting read: first binding of `k`. -/
def lookupA (k : String) : AList α → Option α
  | [] => none
  | (k', v) :: t => if k' = k then some v else lookupA k t

/-- Python `k in m`. -/
def containsKey (k : String) (m : AList α) : Bool := (lookupA k m).isSome

/-- Python `m[k] = v`: replace in place when the key exists, else append. -/
def insertA (k : String) (v : α) (m : AList α) : AList α :=
  if containsKey k m then
    m.map (fun e => if e.1 = k then (k, v) else e)
  else m ++ [(k, v)]

/-- Python `del m[k]` (keys are unique in dicts, so removing every binding
    of `k` agrees with removing the one binding). -/
def eraseKey (k : String) (m : AList α) : AList α :=
  m.filter (fun e => ¬ e.1 = k)

/-- Python `list(m.keys())`. -/
def keysOf (m : AList α) : List String := m.map Prod.fst

/-! ## Data model (`cms2_semantic_parser.py`, dataclasses) -/

/-- CMS-2 data types (modes); enum `CMS2Type`. -/
inductive CMS2Type where
  | INTEGER | FIXED | FLOAT | BOOLEAN | CHAR | STATUS | UNIVERSAL | TABLE | UNKNOWN
deriving DecidableEq, Repr

/-- Dataclass `VariableDefinition`. -/
structure VariableDefinition where
  name : String
  var_type : CMS2Type
  bits : Option Nat := none
  signed : Bool := true
  frac_bits : Option Nat := none
  char_length : Option Nat := none
  status_values : List String := []
  is_preset : Bool := false
  preset_value : Option String := none
  modifier : Option String := none
  line_number : Nat := 0
  column_start : Nat := 0
  column_end : Nat := 0
  parent_block : Option String := none
deriving DecidableEq, Repr

/-- Dataclass `FieldDefinition`. -/
structure FieldDefinition where
  name : String
  field_type : CMS2Type
  bits : Option Nat := none
  signed : Bool := true
  frac_bits : Option Nat := none
  char_length : Option Nat := none
  start_word : Option Nat := none
  start_bit : Option Nat := none
  preset_values : List String := []
  line_number : Nat := 0
  parent_table : Option String := none
deriving DecidableEq, Repr

/-- Dataclass `TableDefinition`. -/
structure TableDefinition where
  name : String
  table_type : String := "V"
  packing : String := "NONE"
  item_count : Option Nat := none
  item_typed : Bool := false
  type_spec : Option String := none
  fields : AList FieldDefinition := []
  is_indirect : Bool := false
  major_index : Option String := none
  modifier : Option String := none
  line_start : Nat := 0
  line_end : Nat := 0
deriving DecidableEq, Repr

/-- Dataclass `ProcedureDefinition`. -/
structure ProcedureDefinition where
  name : String
  is_exec : Bool := false
  input_params : List String := []
  output_params : List String := []
  exit_params : List String := []
  modifier : Option String := none
  local_vars : AList VariableDefinition := []
  line_start : Nat := 0
  line_end : Nat := 0
  body_start : Nat := 0
deriving DecidableEq, Repr

/-- Dataclass `FunctionDefinition`. -/
structure FunctionDefinition where
  name : String
  input_params : List String := []
  return_type : Option String := none
  modifier : Option String := none
  local_vars : AList VariableDefinition := []
  line_start : Nat := 0
  line_end : Nat := 0
deriving DecidableEq, Repr

/-- Dataclass `TypeDefinition`. -/
structure TypeDefinition where
  name : String
  base_type : Option String := none
  packing : String := "NONE"
  status_values : List String := []
  fields : AList FieldDefinition := []
  line_start : Nat := 0
  line_end : Nat := 0
deriving DecidableEq, Repr

/-- Dataclass `SystemDataBlock` (SYS-DD). -/
structure SystemDataBlock where
  name : String
  -- source field `variables` (that word is reserved in Lean)
  vars : AList VariableDefinition := []
  tables : AList TableDefinition := []
  types : AList TypeDefinition := []
  line_start : Nat := 0
  line_end : Nat := 0
deriving DecidableEq, Repr

/-- Dataclass `SystemProcBlock` (SYS-PROC). -/
structure SystemProcBlock where
  name : String
  is_reentrant : Bool := false
  procedures : AList ProcedureDefinition := []
  functions : AList FunctionDefinition := []
  local_data : AList VariableDefinition := []
  line_start : Nat := 0
  line_end : Nat := 0
deriving DecidableEq, Repr

/-- Class `CMS2SemanticModel`'s per-instance state. -/
structure Model where
  -- source field `variables` (that word is reserved in Lean)
  vars : AList VariableDefinition := []
  tables : AList TableDefinition := []
  types : AList TypeDefinition := []
  procedures : AList ProcedureDefinition := []
  functions : AList FunctionDefinition := []
  sys_data_blocks : AList SystemDataBlock := []
  sys_proc_blocks : AList SystemProcBlock := []
  current_scope : String := "GLOBAL"
  scope_stack : List String := []
  constant_mode : String := "D"
deriving DecidableEq, Repr

/-- `CMS2SemanticModel.add_variable`: the variable is stored under its bare
    name and, in a non-GLOBAL scope, additionally under `SCOPE.NAME`. -/
def addVariable (m : Model) (var : VariableDefinition) : Model :=
  let key := if m.current_scope ≠ "GLOBAL"
             then m.current_scope ++ "." ++ var.name else var.name
  { m with vars := insertA key var (insertA var.name var m.vars) }

/-- `CMS2SemanticModel.get_variable`: try `CURRENT_SCOPE.NAME`, then bare
    `NAME`.  Note that the source performs no case canonicalisation here. -/
def getVariable (m : Model) (name : String) : Option VariableDefinition :=
  match lookupA (m.current_scope ++ "." ++ name) m.vars with
  | some v => some v
  | none => lookupA name m.vars

/-- `CMS2SemanticModel.get_table`. -/
def getTable (m : Model) (name : String) : Option TableDefinition :=
  lookupA name m.tables

/-- `CMS2SemanticModel.get_procedure`. -/
def getProcedure (m : Model) (name : String) : Option ProcedureDefinition :=
  lookupA name m.procedures

/-- `CMS2SemanticModel.get_function`. -/
def getFunction (m : Model) (name : String) : Option FunctionDefinition :=
  lookupA name m.functions

/-- `CMS2SemanticModel.get_type`. -/
def getType (m : Model) (name : String) : Option TypeDefinition :=
  lookupA name m.types

/-- Class `CMS2SemanticParser`'s mutable state (`__init__` / `_reset_state`). -/
structure PState where
  model : Model := {}
  in_sys_dd : Bool := false
  current_sys_dd : Option String := none
  in_sys_proc : Bool := false
  current_sys_proc : Option String := none
  in_table_block : Bool := false
  current_table : Option String := none
  in_type_block : Bool := false
  current_type : Option String := none
  in_procedure : Bool := false
  current_procedure : Option String := none
  in_function : Bool := false
  current_function : Option String := none
  in_loc_dd : Bool := false
deriving DecidableEq, Repr

end CMS2

namespace CMS2

/-! ## Hand-compiled regex scanners

Each scanner is a deterministic left-to-right translation of one `re`
pattern from the source.  Patterns here are anchored (`re.match`) and most
consist of required pieces followed by optional pieces.  CPython's
backtracking engine tries an optional group at the current position first
and, when the group's first attempt fails, falls back to skipping the group
before it would ever revisit an earlier greedy/lazy choice point, because
the skip alternative of the optional group is the most recent untried
choice.  Since in these patterns every element following a greedy run can
also match the empty string, the first successful path is the one the
deterministic scanners below compute. -/

/-- `fun c => !(c = a)`: used for classes such as `[^)]`. -/
def neChar (a : Char) (c : Char) : Bool := !(c = a)

/-- Match an uppercase literal case-insensitively at the front (`re` literal
    under `re.IGNORECASE`), returning the rest. -/
def litCI : List Char → List Char → Option (List Char)
  | [], s => some s
  | _ :: _, [] => none
  | p :: ps, c :: cs => if upChar c = p then litCI ps cs else none

/-- `\s+` (greedy): requires at least one whitespace character. -/
def wsPlus : List Char → Option (List Char)
  | [] => none
  | c :: cs => if pyIsSpace c then some (cs.dropWhile pyIsSpace) else none

/-- `\s*` (greedy). -/
def wsStar (s : List Char) : List Char := s.dropWhile pyIsSpace

/-- `([A-Z][A-Z0-9_]*)` under `re.IGNORECASE` (greedy, maximal): the
    captured run in original case, plus the rest. -/
def takeIdent : List Char → Option (List Char × List Char)
  | [] => none
  | c :: cs =>
    if isLetterCI c then some (c :: cs.takeWhile identTail, cs.dropWhile identTail)
    else none

/-- `(\d+)` (greedy, maximal). -/
def takeDigits : List Char → Option (List Char × List Char)
  | [] => none
  | c :: cs =>
    if isDigitA c then some (c :: cs.takeWhile isDigitA, cs.dropWhile isDigitA)
    else none

/-- First literal of an alternation such as `(NONE|MEDIUM|DENSE)` that
    matches at the front (alternatives are tried in order). -/
def tryLitsCI (lits : List String) (s : List Char) : Option (String × List Char) :=
  match lits with
  | [] => none
  | l :: rest =>
    match litCI l.data s with
    | some r => some (l, r)
    | none => tryLitsCI rest s

/-- The modifier-stripping loop shared by the declaration handlers:
    `for mod in [...]: if stmt.upper().startswith(mod): modifier = mod[1:-1];
    stmt = stmt[len(mod):].strip(); break`. -/
def stripModifier (mods : List String) (stmt : List Char) : Option String × List Char :=
  match mods with
  | [] => (none, stmt)
  | mod :: rest =>
    if startsL mod.data (upStr stmt) then
      (some ⟨(mod.data.drop 1).dropLast⟩, strip (stmt.drop mod.data.length))
    else stripModifier rest stmt

/-- `_parse_sys_dd_start`'s pattern `([A-Z][A-Z0-9_]*)\s+SYS-DD`: maximal
    identifier, mandatory whitespace, literal.  No backtracking is possible:
    shortening the identifier run leaves an identifier character (never
    whitespace) at the `\s+` position. -/
def matchSysDd (stmt : List Char) : Option String := do
  let (nm, r1) ← takeIdent stmt
  let r2 ← wsPlus r1
  let _ ← litCI "SYS-DD".data r2
  return ⟨upStr nm⟩

/-- `_parse_sys_proc_start`'s pattern `([A-Z][A-Z0-9_]*)\s+SYS-PROC`. -/
def matchSysProc (stmt : List Char) : Option String := do
  let (nm, r1) ← takeIdent stmt
  let r2 ← wsPlus r1
  let _ ← litCI "SYS-PROC".data r2
  return ⟨upStr nm⟩

/-- The parameter-list comprehension
    `[p.strip().upper() for p in s.split(',') if p.strip()]`. -/
def pyParamList (s : List Char) : List String :=
  ((splitOnChar ',' s).filter (fun p => !(strip p).isEmpty)).map
    (fun p => (⟨upStr (strip p)⟩ : String))

/-- `STATUS_VALUE_PATTERN.findall`: non-overlapping occurrences of
    `'([A-Z][A-Z0-9]*)'` (IGNORECASE), groups in original case.  On failure
    at an opening quote the search restarts one character later, as
    `finditer` does.  `fuel` bounds the scan by the input length; every
    step consumes at least one character and one unit of fuel, so with
    `fuel = length` the zero-fuel branch is unreachable. -/
def findStatusGo : Nat → List Char → List String
  | 0, _ => []
  | _, [] => []
  | fuel + 1, '\'' :: rest =>
    (match rest with
     | c :: cs =>
       if isLetterCI c then
         match cs.dropWhile hoverTail with
         | '\'' :: tail => (⟨c :: cs.takeWhile hoverTail⟩ : String) :: findStatusGo fuel tail
         | _ => findStatusGo fuel rest
       else findStatusGo fuel rest
     | [] => [])
  | fuel + 1, _ :: rest => findStatusGo fuel rest

/-- `STATUS_VALUE_PATTERN.findall(s)`. -/
def findStatus (s : List Char) : List String := findStatusGo s.length s

/-- `re.search(r'\bP\s+(.+?)(?:\s|$)', type_spec, re.IGNORECASE)`: first
    position where `P`/`p` stands at a word boundary and is followed by
    whitespace and a nonempty run; the lazy group stops at the first
    whitespace or end, so it is the maximal non-whitespace run.  (`.`
    excludes `\n`, which is whitespace anyway.)  The type spec this is
    called on is always `.strip()`ped, which rules out the sole input shape
    — trailing whitespace — on which the engine would instead backtrack
    `\s+` and capture a whitespace character. -/
def findPresetGo : Nat → Option Char → List Char → Option String
  | 0, _, _ => none
  | _, _, [] => none
  | fuel + 1, prev, c :: rest =>
    let bdry := match prev with
      | none => true
      | some p => !(wordChar p)
    if upChar c = 'P' && bdry then
      match wsPlus rest with
      | some r =>
        let g := r.takeWhile (fun x => !(pyIsSpace x))
        if g.isEmpty then findPresetGo fuel (some c) rest else some ⟨g⟩
      | none => findPresetGo fuel (some c) rest
    else findPresetGo fuel (some c) rest

/-- The preset search of `_create_variable`. -/
def findPreset (s : List Char) : Option String := findPresetGo s.length none s

/-- `re.match(r'I\s+(\d+)\s+(S|U)', type_upper)` → (bits, signed). -/
def matchInt (t : List Char) : Option (Nat × Bool) := do
  let r0 ← litCI "I".data t
  let r1 ← wsPlus r0
  let (ds, r2) ← takeDigits r1
  let r3 ← wsPlus r2
  match r3 with
  | 'S' :: _ => some (natOfDigits ds, true)
  | 'U' :: _ => some (natOfDigits ds, false)
  | _ => none

/-- `re.match(r'A\s+(\d+)\s+(S|U)\s+(\d+)', type_upper)` →
    (bits, signed, frac). -/
def matchFixed (t : List Char) : Option (Nat × Bool × Nat) := do
  let r0 ← litCI "A".data t
  let r1 ← wsPlus r0
  let (ds, r2) ← takeDigits r1
  let r3 ← wsPlus r2
  match r3 with
  | 'S' :: r4 => do
    let r5 ← wsPlus r4
    let (fs, _) ← takeDigits r5
    some (natOfDigits ds, true, natOfDigits fs)
  | 'U' :: r4 => do
    let r5 ← wsPlus r4
    let (fs, _) ← takeDigits r5
    some (natOfDigits ds, false, natOfDigits fs)
  | _ => none

/-- `re.match(r'[HC]\s*(\d+)', type_upper)` → char length. -/
def matchCharSpec (t : List Char) : Option Nat :=
  match t with
  | c :: cs =>
    if c = 'H' || c = 'C' then
      match takeDigits (wsStar cs) with
      | some (ds, _) => some (natOfDigits ds)
      | none => none
    else none
  | [] => none

end CMS2

namespace CMS2

/-! ## Declaration handlers (`CMS2SemanticParser._parse_*`) -/

/-- `_create_variable`: derive mode and attributes from the type spec and
    store the variable in the model (and the open SYS-DD block / procedure
    local index).  The sequence of `if` statements in the source overwrites
    `var_type` in order; the chain below reproduces it. -/
def createVariable (st : PState) (name : String) (type_spec : List Char)
    (modifier : Option String) (line_num : Nat) : PState :=
  let type_upper := strip (upStr type_spec)
  let intM := matchInt type_upper
  let fixedM := matchFixed type_upper
  -- `F(\s*\([TRSD]\))?` succeeds exactly when the spec starts with `F`
  let floatB := startsL ['F'] type_upper
  let boolB := startsL ['B'] type_upper && !(startsL "BY".data type_upper)
  let charM := matchCharSpec type_upper
  let statusVals := if hasSub ['\''] type_spec then findStatus type_spec else []
  let presetM := findPreset type_spec
  let t1 := if intM.isSome then CMS2Type.INTEGER else CMS2Type.UNKNOWN
  let t2 := if fixedM.isSome then CMS2Type.FIXED else t1
  let t3 := if floatB && intM.isNone && fixedM.isNone then CMS2Type.FLOAT else t2
  let t4 := if boolB then CMS2Type.BOOLEAN else t3
  let t5 := if charM.isSome then CMS2Type.CHAR else t4
  let t6 := if !statusVals.isEmpty then CMS2Type.STATUS else t5
  let bits1 := match fixedM with
    | some (b, _, _) => some b
    | none => match intM with
      | some (b, _) => some b
      | none => none
  let sg1 := match fixedM with
    | some (_, s, _) => s
    | none => match intM with
      | some (_, s) => s
      | none => true
  let frac := match fixedM with
    | some (_, _, f) => some f
    | none => none
  let var : VariableDefinition := {
    name := name, var_type := t6, bits := bits1, signed := sg1,
    frac_bits := frac, char_length := charM, status_values := statusVals,
    is_preset := presetM.isSome, preset_value := presetM,
    modifier := modifier, line_number := line_num,
    parent_block := st.current_sys_dd.orElse (fun _ => st.current_sys_proc) }
  let m1 := addVariable st.model var
  let m2 := match st.current_sys_dd with
    | some d =>
      match lookupA d m1.sys_data_blocks with
      | some blk =>
        { m1 with sys_data_blocks :=
            insertA d { blk with vars := insertA name var blk.vars } m1.sys_data_blocks }
      | none => m1
    | none => m1
  let m3 := match st.current_procedure with
    | some p =>
      match lookupA p m2.procedures with
      | some pr =>
        { m2 with procedures :=
            insertA p { pr with local_vars := insertA name var pr.local_vars } m2.procedures }
      | none => m2
    | none => m2
  { st with model := m3 }

/-- Grouped form `VRBL\s*\(([^)]+)\)\s+(.+)`: names in original case,
    stripped; type spec stripped. -/
def extractVrblMulti (stmt : List Char) : Option (List (List Char) × List Char) := do
  let r0 ← litCI "VRBL".data stmt
  match wsStar r0 with
  | '(' :: r2 =>
    let inner := r2.takeWhile (neChar ')')
    if inner.isEmpty then none
    else
      match r2.dropWhile (neChar ')') with
      | ')' :: r3 => do
        let r4 ← wsPlus r3
        let g2 := r4.takeWhile (neChar '\n')
        if g2.isEmpty then none
        else some ((splitOnChar ',' inner).map strip, strip g2)
      | _ => none
  | _ => none

/-- Single form `VRBL\s+([A-Z][A-Z0-9_]*)\s+(.+)`: name uppercased, type
    spec stripped. -/
def extractVrblSingle (stmt : List Char) : Option (String × List Char) := do
  let r0 ← litCI "VRBL".data stmt
  let r1 ← wsPlus r0
  let (nm, r2) ← takeIdent r1
  let r3 ← wsPlus r2
  let g2 := r3.takeWhile (neChar '\n')
  if g2.isEmpty then none else some ((⟨upStr nm⟩ : String), strip g2)

/-- `_parse_vrbl_declaration`. -/
def parseVrblDecl (st : PState) (statement : List Char) (line_num : Nat) : PState :=
  let stmt0 := strip statement
  let (modifier, stmt) :=
    stripModifier ["(EXTDEF)", "(EXTREF)", "(LOCREF)", "(TRANSREF)"] stmt0
  match extractVrblMulti stmt with
  | some (names, type_spec) =>
    names.foldl (fun s n => createVariable s (⟨n⟩ : String) type_spec modifier line_num) st
  | none =>
    match extractVrblSingle stmt with
    | some (nm, type_spec) => createVariable st nm type_spec modifier line_num
    | none => st

end CMS2

namespace CMS2

/-- The match data of `_parse_table_declaration`'s pattern
    `TABLE\s+([A-Z][A-Z0-9_]*)\s+([VH])\s*(NONE|MEDIUM|DENSE)?\s*`
    `(?:\(([^)]+)\))?\s*(?:INDIRECT\s+)?(\d+|[A-Z][A-Z0-9_]*)?`.
    All pieces after `([VH])` are optional and separated by `\s*`, so the
    first-attempt-wins scan below is what the engine computes. -/
structure TableMatch where
  nm : List Char
  vh : Char
  packing : Option String
  tspec : Option (List Char)
  countStr : Option (List Char)
deriving DecidableEq, Repr

/-- `_parse_table_declaration`'s regex. -/
def extractTable (stmt : List Char) : Option TableMatch := do
  let r0 ← litCI "TABLE".data stmt
  let r1 ← wsPlus r0
  let (nm, r2) ← takeIdent r1
  let r3 ← wsPlus r2
  match r3 with
  | v :: r4 =>
    if upChar v = 'V' || upChar v = 'H' then
      let r5 := wsStar r4
      let (packing, r6) := match tryLitsCI ["NONE", "MEDIUM", "DENSE"] r5 with
        | some (p, r) => (some p, r)
        | none => (none, r5)
      let r7 := wsStar r6
      let (tspec, r8) := match r7 with
        | '(' :: rr =>
          let inner := rr.takeWhile (neChar ')')
          (match rr.dropWhile (neChar ')') with
           | ')' :: tail => if inner.isEmpty then (none, r7) else (some inner, tail)
           | _ => (none, r7))
        | _ => (none, r7)
      let r9 := wsStar r8
      let r10 := match litCI "INDIRECT".data r9 with
        | some r =>
          match wsPlus r with
          | some rr => rr
          | none => r9
        | none => r9
      let countStr := match r10 with
        | c :: cs =>
          if isDigitA c then some (c :: cs.takeWhile isDigitA)
          else if isLetterCI c then some (c :: cs.takeWhile identTail)
          else none
        | [] => none
      some ⟨nm, v, packing, tspec, countStr⟩
    else none
  | [] => none

/-- `re.search(r'\bMJ\s+([A-Z][A-Z0-9]*)', stmt, re.IGNORECASE)`:
    first `MJ` at a word boundary followed by whitespace and an
    identifier; the group is uppercased by the caller, done here. -/
def findMJGo : Nat → Option Char → List Char → Option String
  | 0, _, _ => none
  | _, _, [] => none
  | fuel + 1, prev, c :: rest =>
    let bdry := match prev with
      | none => true
      | some p => !(wordChar p)
    let attempt : Option String :=
      if upChar c = 'M' && bdry then
        match rest with
        | c2 :: r2 =>
          if upChar c2 = 'J' then
            match wsPlus r2 with
            | some r3 =>
              match r3 with
              | c3 :: r4 =>
                if isLetterCI c3 then some (⟨upStr (c3 :: r4.takeWhile hoverTail)⟩ : String)
                else none
              | [] => none
            | none => none
          else none
        | [] => none
      else none
    match attempt with
    | some s => some s
    | none => findMJGo fuel (some c) rest

/-- The major-index search of `_parse_table_declaration`. -/
def findMJ (s : List Char) : Option String := findMJGo s.length none s

/-- `_parse_table_declaration`. -/
def parseTableDecl (st : PState) (statement : List Char) (n : Nat) : PState :=
  let stmt := strip statement
  match extractTable stmt with
  | none => st
  | some tm =>
    let name : String := ⟨upStr tm.nm⟩
    let table_type : String := ⟨[upChar tm.vh]⟩
    let packing := tm.packing.getD "NONE"
    let tspecS : Option String := tm.tspec.map (fun l => (⟨l⟩ : String))
    -- `if count_str and count_str.isdigit()`: only the `\d+` branch of the
    -- alternation satisfies `isdigit`
    let item_count : Option Nat := match tm.countStr with
      | some ds => if !ds.isEmpty && ds.all isDigitA then some (natOfDigits ds) else none
      | none => none
    let is_indirect := hasSub "INDIRECT".data (upStr stmt)
    let major_index := findMJ stmt
    let table : TableDefinition := {
      name := name, table_type := table_type, packing := packing,
      item_count := item_count, item_typed := tspecS.isSome, type_spec := tspecS,
      is_indirect := is_indirect, major_index := major_index, line_start := n }
    let m1 := { st.model with tables := insertA name table st.model.tables }
    let m2 := match st.current_sys_dd with
      | some d =>
        match lookupA d m1.sys_data_blocks with
        | some blk =>
          { m1 with sys_data_blocks :=
              insertA d { blk with tables := insertA name table blk.tables } m1.sys_data_blocks }
        | none => m1
      | none => m1
    { st with model := m2, current_table := some name, in_table_block := true }

/-- `_handle_end_table`. -/
def handleEndTable (st : PState) (n : Nat) : PState :=
  let m1 := match st.current_table with
    | some nm =>
      match lookupA nm st.model.tables with
      | some tb =>
        { st.model with tables := insertA nm { tb with line_end := n } st.model.tables }
      | none => st.model
    | none => st.model
  { st with model := m1, in_table_block := false, current_table := none }

/-- Match data of `_parse_field_declaration`'s pattern
    `FIELD\s+([A-Z][A-Z0-9_]*)\s+([IAFBHC])\s*(\d+)?\s*(S|U)?\s*(\d+)?\s*`
    `(?:(\d+)\s+(\d+))?\s*(?:P\s+(.+))?` (IGNORECASE).  Groups keep their
    original case: the source compares group 4 with `'U'`
    case-sensitively. -/
structure FieldMatch where
  nm : List Char
  tc : Char
  g3 : Option (List Char)
  g4 : Option Char
  g5 : Option (List Char)
  g67 : Option (List Char × List Char)
  g8 : Option (List Char)
deriving DecidableEq, Repr

/-- `_parse_field_declaration`'s regex. -/
def extractField (stmt : List Char) : Option FieldMatch := do
  let r0 ← litCI "FIELD".data stmt
  let r1 ← wsPlus r0
  let (nm, r2) ← takeIdent r1
  let r3 ← wsPlus r2
  match r3 with
  | tc :: r4 =>
    if "IAFBHC".data.contains (upChar tc) then
      let r5 := wsStar r4
      let (g3, r6) := match takeDigits r5 with
        | some (ds, r) => (some ds, r)
        | none => (none, r5)
      let r7 := wsStar r6
      let (g4, r8) := match r7 with
        | c :: cs => if upChar c = 'S' || upChar c = 'U' then (some c, cs) else (none, r7)
        | [] => (none, r7)
      let r9 := wsStar r8
      let (g5, r10) := match takeDigits r9 with
        | some (ds, r) => (some ds, r)
        | none => (none, r9)
      let r11 := wsStar r10
      let (g67, r12) := match takeDigits r11 with
        | some (d1, ra) =>
          (match wsPlus ra with
           | some rb =>
             match takeDigits rb with
             | some (d2, rc) => (some (d1, d2), rc)
             | none => (none, r11)
           | none => (none, r11))
        | none => (none, r11)
      let r13 := wsStar r12
      let g8 := match litCI "P".data r13 with
        | some rp =>
          match wsPlus rp with
          | some rq =>
            let g := rq.takeWhile (neChar '\n')
            if g.isEmpty then none else some g
          | none => none
        | none => none
      some ⟨nm, tc, g3, g4, g5, g67, g8⟩
    else none
  | [] => none

/-- `_parse_field_declaration`. -/
def parseFieldDecl (st : PState) (statement : List Char) (n : Nat) : PState :=
  let stmt := strip statement
  match extractField stmt, st.current_table with
  | some fm, some tname =>
    let name : String := ⟨upStr fm.nm⟩
    let type_char := upChar fm.tc
    let bits := fm.g3.map natOfDigits
    let signed := match fm.g4 with
      | some c => !(c = 'U')
      | none => true
    let frac := fm.g5.map natOfDigits
    let ftype :=
      if type_char = 'I' then CMS2Type.INTEGER
      else if type_char = 'A' then CMS2Type.FIXED
      else if type_char = 'F' then CMS2Type.FLOAT
      else if type_char = 'B' then CMS2Type.BOOLEAN
      else if type_char = 'H' || type_char = 'C' then CMS2Type.CHAR
      else CMS2Type.UNKNOWN
    let fld : FieldDefinition := {
      name := name, field_type := ftype, bits := bits, signed := signed,
      frac_bits := frac,
      char_length := if type_char = 'H' || type_char = 'C' then bits else none,
      start_word := fm.g67.map (fun p => natOfDigits p.1),
      start_bit := fm.g67.map (fun p => natOfDigits p.2),
      preset_values := (match fm.g8 with
        | some p => [(⟨p⟩ : String)]
        | none => []),
      line_number := n, parent_table := some tname }
    match lookupA tname st.model.tables with
    | some tb =>
      let tb' := { tb with fields := insertA name fld tb.fields }
      let m1 := { st.model with tables := insertA tname tb' st.model.tables }
      { st with model := m1 }
    | none => st
  | _, _ => st

/-- Status form `TYPE\s+([A-Z][A-Z0-9_]*)\s+(.+)`; here `(.+)` is greedy so
    the group is the whole remainder of the (newline-free) statement. -/
def extractTypeStatus (stmt : List Char) : Option (List Char × List Char) := do
  let r0 ← litCI "TYPE".data stmt
  let r1 ← wsPlus r0
  let (nm, r2) ← takeIdent r1
  let r3 ← wsPlus r2
  let g2 := r3.takeWhile (neChar '\n')
  if g2.isEmpty then none else some (nm, g2)

/-- Structured form `TYPE\s+([A-Z][A-Z0-9_]*)\s*(NONE|MEDIUM|DENSE)?`. -/
def extractTypeStructured (stmt : List Char) : Option (List Char × Option String) := do
  let r0 ← litCI "TYPE".data stmt
  let r1 ← wsPlus r0
  let (nm, r2) ← takeIdent r1
  let r3 := wsStar r2
  let packing := (tryLitsCI ["NONE", "MEDIUM", "DENSE"] r3).map Prod.fst
  some (nm, packing)

/-- `_parse_type_declaration`. -/
def parseTypeDecl (st : PState) (statement : List Char) (n : Nat) : PState :=
  let stmt := strip statement
  if hasSub ['\''] stmt then
    match extractTypeStatus stmt with
    | some (nm, rest) =>
      let name : String := ⟨upStr nm⟩
      let status_values := findStatus rest
      let typedef : TypeDefinition := {
        name := name, status_values := status_values, line_start := n }
      let m1 := { st.model with types := insertA name typedef st.model.types }
      let m2 := match st.current_sys_dd with
        | some d =>
          match lookupA d m1.sys_data_blocks with
          | some blk =>
            { m1 with sys_data_blocks :=
                insertA d { blk with types := insertA name typedef blk.types } m1.sys_data_blocks }
          | none => m1
        | none => m1
      { st with model := m2 }
    | none => st
  else
    match extractTypeStructured stmt with
    | some (nm, packing) =>
      let name : String := ⟨upStr nm⟩
      let typedef : TypeDefinition := {
        name := name, packing := packing.getD "NONE", line_start := n }
      { st with
        model := { st.model with types := insertA name typedef st.model.types },
        current_type := some name, in_type_block := true }
    | none => st

/-- `_handle_end_type`. -/
def handleEndType (st : PState) (n : Nat) : PState :=
  let m1 := match st.current_type with
    | some nm =>
      match lookupA nm st.model.types with
      | some td =>
        { st.model with types := insertA nm { td with line_end := n } st.model.types }
      | none => st.model
    | none => st.model
  { st with model := m1, in_type_block := false, current_type := none }

end CMS2

namespace CMS2

/-- `_parse_procedure_declaration`'s pattern
    `PROCEDURE\s+([A-Z][A-Z0-9_]*)\s*(?:INPUT\s+(.*?))?`
    `(?:\s+OUTPUT\s+(.*?))?(?:\s+EXIT\s+(.*))?` (IGNORECASE | DOTALL).

    Engine trace.  After the name, `\s*` greedily consumes all whitespace.
    The INPUT group either fails (skipped, group 2 = None) or matches
    `INPUT` plus a maximal whitespace run with the lazy `(.*?)` capturing
    the empty string.  The OUTPUT group then needs `\s+` at a position
    where the next character is never whitespace (all whitespace was just
    consumed); its match attempt fails at once, and the engine takes the
    group's skip alternative — the most recent untried choice — rather
    than growing the earlier lazy group.  The EXIT group fails the same
    way.  The overall match therefore always succeeds with
    group 2 ∈ {'', None} and groups 3, 4 = None, i.e. the pattern never
    captures any parameter text. -/
def extractProcedure (stmt : List Char) : Option (String × Bool) := do
  let r0 ← litCI "PROCEDURE".data stmt
  let r1 ← wsPlus r0
  let (nm, r2) ← takeIdent r1
  let r3 := wsStar r2
  let inputEmptyMatch := match litCI "INPUT".data r3 with
    | some r => (wsPlus r).isSome
    | none => false
  some ((⟨upStr nm⟩ : String), inputEmptyMatch)

/-- `_parse_procedure_declaration`. -/
def parseProcDecl (st : PState) (statement : List Char) (n : Nat) : PState :=
  let stmt0 := strip statement
  let (modifier, stmt) :=
    stripModifier ["(EXTDEF)", "(EXTREF)", "(LOCREF)", "(TRANSREF)"] stmt0
  match extractProcedure stmt with
  | none => st
  | some (name, inputMatched) =>
    -- `input_str = match.group(2) or ""` is "" whether the INPUT branch
    -- matched (group '') or not (None); `output_str`/`exit_str` are ""
    -- because groups 3 and 4 are always None (see `extractProcedure`).
    let input_str : List Char := if inputMatched then [] else []
    let output_str : List Char := []
    let exit_str : List Char := []
    let proc : ProcedureDefinition := {
      name := name, is_exec := false,
      input_params := pyParamList input_str,
      output_params := pyParamList output_str,
      exit_params := pyParamList exit_str,
      modifier := modifier, line_start := n }
    let m1 := { st.model with procedures := insertA name proc st.model.procedures }
    let m2 := match st.current_sys_proc with
      | some sp =>
        match lookupA sp m1.sys_proc_blocks with
        | some blk =>
          let blk' := { blk with procedures := insertA name proc blk.procedures }
          { m1 with sys_proc_blocks := insertA sp blk' m1.sys_proc_blocks }
        | none => m1
      | none => m1
    { st with model := m2, current_procedure := some name, in_procedure := true }

/-- `_parse_exec_proc_declaration`'s pattern
    `EXEC-PROC\s+([A-Z][A-Z0-9_]*)\s*(?:INPUT\s+([^$]*))?`: here the inner
    group is greedy, so when `INPUT` plus whitespace matches, the group
    captures the whole remaining text (statements never contain `$`). -/
def extractExecProc (stmt : List Char) : Option (String × Option (List Char)) := do
  let r0 ← litCI "EXEC-PROC".data stmt
  let r1 ← wsPlus r0
  let (nm, r2) ← takeIdent r1
  let r3 := wsStar r2
  let g2 := match litCI "INPUT".data r3 with
    | some r =>
      match wsPlus r with
      | some rr => some (rr.takeWhile (neChar '$'))
      | none => none
    | none => none
  some ((⟨upStr nm⟩ : String), g2)

/-- `_parse_exec_proc_declaration`. -/
def parseExecProcDecl (st : PState) (statement : List Char) (n : Nat) : PState :=
  let stmt0 := strip statement
  let (modifier, stmt) := stripModifier ["(EXTDEF)", "(EXTREF)"] stmt0
  match extractExecProc stmt with
  | none => st
  | some (name, g2) =>
    let input_str := g2.getD []
    let proc : ProcedureDefinition := {
      name := name, is_exec := true,
      input_params := pyParamList input_str,
      modifier := modifier, line_start := n }
    { st with
      model := { st.model with procedures := insertA name proc st.model.procedures },
      current_procedure := some name, in_procedure := true }

/-- `_handle_end_proc`. -/
def handleEndProc (st : PState) (n : Nat) : PState :=
  let m1 := match st.current_procedure with
    | some nm =>
      match lookupA nm st.model.procedures with
      | some pr =>
        { st.model with procedures := insertA nm { pr with line_end := n } st.model.procedures }
      | none => st.model
    | none => st.model
  { st with model := m1, in_procedure := false, current_procedure := none }

/-- `_parse_function_declaration`'s pattern
    `FUNCTION\s+([A-Z][A-Z0-9_]*)\s*\(([^)]*)\)\s*(.+)?`. -/
def extractFunction (stmt : List Char) : Option (String × List Char × Option (List Char)) := do
  let r0 ← litCI "FUNCTION".data stmt
  let r1 ← wsPlus r0
  let (nm, r2) ← takeIdent r1
  match wsStar r2 with
  | '(' :: rr =>
    let inner := rr.takeWhile (neChar ')')
    (match rr.dropWhile (neChar ')') with
     | ')' :: tail =>
       let r4 := wsStar tail
       let g := r4.takeWhile (neChar '\n')
       some ((⟨upStr nm⟩ : String), inner, if g.isEmpty then none else some g)
     | _ => none)
  | _ => none

/-- `_parse_function_declaration`. -/
def parseFunctionDecl (st : PState) (statement : List Char) (n : Nat) : PState :=
  let stmt0 := strip statement
  let (modifier, stmt) :=
    stripModifier ["(EXTDEF)", "(EXTREF)", "(LOCREF)", "(TRANSREF)"] stmt0
  match extractFunction stmt with
  | none => st
  | some (name, params_str, g3) =>
    let func : FunctionDefinition := {
      name := name,
      input_params := pyParamList params_str,
      return_type := g3.map (fun l => ((⟨strip l⟩ : String))),
      modifier := modifier, line_start := n }
    { st with
      model := { st.model with functions := insertA name func st.model.functions },
      current_function := some name, in_function := true }

/-- `_handle_end_function`. -/
def handleEndFunction (st : PState) (n : Nat) : PState :=
  let m1 := match st.current_function with
    | some nm =>
      match lookupA nm st.model.functions with
      | some fd =>
        { st.model with functions := insertA nm { fd with line_end := n } st.model.functions }
      | none => st.model
    | none => st.model
  { st with model := m1, in_function := false, current_function := none }

/-- `_parse_sys_dd_start`. -/
def parseSysDdStart (st : PState) (statement : List Char) (n : Nat) : PState :=
  match matchSysDd statement with
  | some name =>
    let block : SystemDataBlock := { name := name, line_start := n }
    let m1 := { st.model with
      sys_data_blocks := insertA name block st.model.sys_data_blocks,
      current_scope := name }
    { st with model := m1, current_sys_dd := some name, in_sys_dd := true }
  | none => st

/-- `_handle_end_sys_dd`. -/
def handleEndSysDd (st : PState) (n : Nat) : PState :=
  let m1 := match st.current_sys_dd with
    | some nm =>
      match lookupA nm st.model.sys_data_blocks with
      | some blk =>
        let blk' := { blk with line_end := n }
        { st.model with sys_data_blocks := insertA nm blk' st.model.sys_data_blocks }
      | none => st.model
    | none => st.model
  let m2 := { m1 with current_scope := "GLOBAL" }
  { st with model := m2, in_sys_dd := false, current_sys_dd := none }

/-- `_parse_sys_proc_start`. -/
def parseSysProcStart (st : PState) (statement : List Char) (n : Nat) : PState :=
  let is_reentrant := hasSub "SYS-PROC-REN".data (upStr statement)
  match matchSysProc statement with
  | some name =>
    let block : SystemProcBlock := {
      name := name, is_reentrant := is_reentrant, line_start := n }
    let m1 := { st.model with
      sys_proc_blocks := insertA name block st.model.sys_proc_blocks,
      current_scope := name }
    { st with model := m1, current_sys_proc := some name, in_sys_proc := true }
  | none => st

/-- `_handle_end_sys_proc`. -/
def handleEndSysProc (st : PState) (n : Nat) : PState :=
  let m1 := match st.current_sys_proc with
    | some nm =>
      match lookupA nm st.model.sys_proc_blocks with
      | some blk =>
        let blk' := { blk with line_end := n }
        { st.model with sys_proc_blocks := insertA nm blk' st.model.sys_proc_blocks }
      | none => st.model
    | none => st.model
  let m2 := { m1 with current_scope := "GLOBAL" }
  { st with model := m2, in_sys_proc := false, current_sys_proc := none }

/-- `_parse_cmode`: note that `'O' in statement.upper()` is always true for
    a statement containing the word CMODE itself. -/
def parseCmode (st : PState) (statement : List Char) (_n : Nat) : PState :=
  if hasSub ['O'] (upStr statement) then
    { st with model := { st.model with constant_mode := "O" } }
  else
    { st with model := { st.model with constant_mode := "D" } }

/-- `_parse_statement`'s keyword dispatch chain, in source order, with the
    local `upper` an explicit argument. -/
def parseStatementU (st : PState) (statement : List Char) (upper : List Char)
    (n : Nat) : PState :=
  if hasSub "SYS-DD".data upper && !(hasSub "END-SYS-DD".data upper) then
    parseSysDdStart st statement n
  else if hasSub "END-SYS-DD".data upper then handleEndSysDd st n
  else if hasSub "SYS-PROC".data upper && !(hasSub "END-SYS-PROC".data upper) then
    parseSysProcStart st statement n
  else if hasSub "END-SYS-PROC".data upper then handleEndSysProc st n
  else if startsL "LOC-DD".data upper || hasSub " LOC-DD".data upper then
    { st with in_loc_dd := true }
  else if hasSub "END-LOC-DD".data upper then { st with in_loc_dd := false }
  else if startsL "VRBL".data upper || hasSub " VRBL ".data upper
      || startsL "(EXTDEF) VRBL".data upper || startsL "(EXTREF) VRBL".data upper
      || startsL "(LOCREF) VRBL".data upper || startsL "(TRANSREF) VRBL".data upper then
    parseVrblDecl st statement n
  else if startsL "TABLE".data upper || hasSub " TABLE ".data upper then
    parseTableDecl st statement n
  else if hasSub "END-TABLE".data upper then handleEndTable st n
  else if startsL "FIELD".data upper then parseFieldDecl st statement n
  else if startsL "TYPE".data upper && !(hasSub "END-TYPE".data upper) then
    parseTypeDecl st statement n
  else if hasSub "END-TYPE".data upper then handleEndType st n
  else if startsL "PROCEDURE".data upper || hasSub " PROCEDURE ".data upper
      || startsL "(EXTDEF) PROCEDURE".data upper || startsL "(EXTREF) PROCEDURE".data upper then
    parseProcDecl st statement n
  else if startsL "EXEC-PROC".data upper || hasSub " EXEC-PROC ".data upper then
    parseExecProcDecl st statement n
  else if hasSub "END-PROC".data upper then handleEndProc st n
  else if startsL "FUNCTION".data upper || hasSub " FUNCTION ".data upper then
    parseFunctionDecl st statement n
  else if hasSub "END-FUNCTION".data upper then handleEndFunction st n
  else if startsL "CMODE".data upper then parseCmode st statement n
  else st

/-- `_parse_statement`: the keyword dispatch, with the local
    `upper = statement.strip().upper()` passed to the branch test. -/
def parseStatement (st : PState) (statement : List Char) (n : Nat) : PState :=
  parseStatementU st statement (strip (upStr statement)) n

/-! ## The parse loop (`CMS2SemanticParser.parse`) -/

/-- The inner `while '$' in statement_buffer` loop: split off the prefix up
    to the first `$`, parse it when nonempty, keep the stripped remainder.
    `fuel` bounds the iteration count; every iteration strictly shortens
    the buffer, so with `fuel = buffer length + 1` the zero branch is
    unreachable (kept structural so that concrete runs reduce). -/
def drainGo : Nat → PState → List Char → Nat → PState × List Char
  | 0, st, buf, _ => (st, buf)
  | fuel + 1, st, buf, i =>
    if buf.any (fun c => c = '$') then
      let pre := buf.takeWhile (neChar '$')
      let post := (buf.dropWhile (neChar '$')).drop 1
      let statement := strip pre
      let st' := if statement.isEmpty then st else parseStatement st statement i
      drainGo fuel st' (strip post) i
    else (st, buf)

/-- One iteration of the `for i, line in enumerate(self.lines)` loop, after
    the comment strip has been applied to the line. -/
def procLineCore (acc : PState × List Char) (p : Nat × List Char) : PState × List Char :=
  let (st, buffer) := acc
  let (i, lineNC) := p
  let stripped := strip lineNC
  if stripped.isEmpty then acc
  else
    let buffer' := buffer ++ ' ' :: stripped
    drainGo (buffer'.length + 1) st buffer' i

/-- `_remove_comments`'s character scan: a `''` pair toggles the
    in-comment flag (and is itself dropped); any other character is kept
    exactly when the flag is off.  The three non-overlapping cases mirror
    the source's `line[i:i+2] == "''"` check followed by the
    single-character step. -/
def rcAux : Bool → List Char → List Char
  | _, [] => []
  | f, [c] => if f then [] else [c]
  | f, c :: d :: rest =>
    if c = '\'' ∧ d = '\'' then rcAux (!f) rest
    else if f then rcAux f (d :: rest) else c :: rcAux f (d :: rest)

/-- The in-comment flag left by `_remove_comments`'s scan (the source
    discards it at end of line; it is needed to state how the scan splits
    over concatenation). -/
def rcFlag : Bool → List Char → Bool
  | f, [] => f
  | f, [_] => f
  | f, c :: d :: rest =>
    if c = '\'' ∧ d = '\'' then rcFlag (!f) rest else rcFlag f (d :: rest)

/-- `_remove_comments`: the flag starts (and is discarded) per line. -/
def removeComments (line : List Char) : List Char := rcAux false line

/-- Parse a document given as a list of characters: split on newlines,
    process each line in order; the final leftover buffer is discarded and
    the accumulated model returned. -/
def parseChars (doc : List Char) : Model :=
  let lines := splitOnChar '\n' doc
  ((lines.enum.foldl
      (fun acc p => procLineCore acc (p.1, removeComments p.2))
      (({} : PState), ([] : List Char))).1).model

/-- `CMS2SemanticParser.parse`. -/
def parse (code : String) : Model := parseChars code.data

end CMS2

namespace CMS2

/-! ## Query layer -/

/-- Maximal runs of `\w` characters with their start positions.  `fuel`
    bounds the scan by the line length (each step consumes at least one
    character). -/
def wordRunsGo : Nat → Nat → List Char → List (Nat × List Char)
  | 0, _, _ => []
  | _, _, [] => []
  | fuel + 1, pos, c :: cs =>
    if wordChar c then
      let run := c :: cs.takeWhile wordChar
      (pos, run) :: wordRunsGo fuel (pos + run.length) (cs.dropWhile wordChar)
    else wordRunsGo fuel (pos + 1) cs

/-- Maximal word runs of a line. -/
def wordRuns (l : List Char) : List (Nat × List Char) := wordRunsGo l.length 0 l

/-- The matches of `\b([A-Z][A-Z0-9_]*)\b` (IGNORECASE) in a line.  Since
    `[A-Z0-9_]` under IGNORECASE is exactly `\w` on ASCII, a match is
    precisely a maximal word run whose first character is a letter: a run
    headed by a digit or underscore offers no interior `\b`, and a match
    can neither start nor stop inside a run. -/
def serverWordMatches (l : List Char) : List (Nat × List Char) :=
  (wordRuns l).filter (fun p =>
    match p.2 with
    | c :: _ => isLetterCI c
    | [] => false)

/-- `CMS2LanguageServer._get_word_at_position`: the first match whose
    `[start, end]` span contains the column — both bounds inclusive, as in
    `match.start() <= character <= match.end()` — uppercased. -/
def getWordAtPosition (line : String) (character : Nat) : Option String :=
  ((serverWordMatches line.data).find?
      (fun p => decide (p.1 ≤ character ∧ character ≤ p.1 + p.2.length))).map
    (fun p => (⟨upStr p.2⟩ : String))

/-- The matches of the hover pattern `\b([A-Z][A-Z0-9]*)\b` (IGNORECASE),
    whose class omits the underscore.  A maximal word run containing `_`
    yields no match at all: the greedy letters-digits run from the run's
    head stops at the first `_`, which is a word character, so the closing
    `\b` fails, and every shorter stop is also interior to the run; there
    is no other `\b` inside the run to restart from.  Hence the matches
    are the maximal word runs that start with a letter and contain no
    underscore. -/
def hoverWordMatches (l : List Char) : List (Nat × List Char) :=
  (wordRuns l).filter (fun p =>
    (match p.2 with
     | c :: _ => isLetterCI c
     | [] => false) && !(p.2.contains '_'))

/-- The word-at-position resolution inside `get_hover_info` (same inclusive
    containment test as the server's, but with the hover pattern). -/
def hoverWordAt (l : List Char) (col : Nat) : Option String :=
  ((hoverWordMatches l).find?
      (fun p => decide (p.1 ≤ col ∧ col ≤ p.1 + p.2.length))).map
    (fun p => (⟨upStr p.2⟩ : String))

/-- `.value` of the `CMS2Type` enum members. -/
def cms2TypeValue : CMS2Type → String
  | .INTEGER => "I"
  | .FIXED => "A"
  | .FLOAT => "F"
  | .BOOLEAN => "B"
  | .CHAR => "H"
  | .STATUS => "STATUS"
  | .UNIVERSAL => "UNIV"
  | .TABLE => "TABLE"
  | .UNKNOWN => "UNKNOWN"

/-- Python `f"{x}"` on an `Optional[int]`. -/
def optNatStr : Option Nat → String
  | some n => toString n
  | none => "None"

/-- Python `', '.join`. -/
def joinWith (sep : String) : List String → String
  | [] => ""
  | [x] => x
  | x :: xs => x ++ sep ++ joinWith sep xs

/-- `CMS2SemanticParser._format_type`. -/
def formatType (var : VariableDefinition) : String :=
  match var.var_type with
  | .INTEGER => "I " ++ optNatStr var.bits ++ " " ++ (if var.signed then "S" else "U")
  | .FIXED => "A " ++ optNatStr var.bits ++ " " ++ (if var.signed then "S" else "U")
      ++ " " ++ optNatStr var.frac_bits
  | .FLOAT => "F"
  | .BOOLEAN => "B"
  | .CHAR => "H " ++ optNatStr var.char_length
  | .STATUS =>
    let vals := joinWith ", " (var.status_values.take 3)
    let vals := if var.status_values.length > 3 then vals ++ "..." else vals
    "STATUS (" ++ vals ++ ")"
  | t => cms2TypeValue t

/-- `CMS2SemanticParser.RESERVED_WORDS` (a Python set; order immaterial,
    only membership is queried). -/
def RESERVED_WORDS : List String := [
  "ABS", "ALG", "AND", "BASE", "BEGIN", "BIT", "BY", "CAT", "CHAR",
  "CHECKID", "CIRC", "CLOSE", "CMODE", "COMMENT", "COMP", "CORAD",
  "CORRECT", "CSWITCH", "DATA", "DATAPOOL", "DEBUG", "DECODE",
  "DEFID", "DENSE", "DEP", "DIRECT", "DISPLAY", "ELSE", "ELSIF",
  "ENCODE", "END", "ENDFILE", "EQ", "EQUALS", "EVENP", "EXCHANGE",
  "EXEC", "EXIT", "FIELD", "FILE", "FIND", "FOR", "FORMAT", "FROM",
  "FUNCTION", "GOTO", "GT", "GTEQ", "HEAD", "IF", "INDIRECT",
  "INPUT", "INTO", "INVALID", "LIBS", "LOG", "LT", "LTEQ", "MEANS",
  "MEDIUM", "MODE", "NITEMS", "NONE", "NOT", "OCM", "OODP", "OPEN",
  "OPTIONS", "OR", "OUTPUT", "OVERFLOW", "OVERLAY", "PRINT", "PTRACE",
  "PUNCH", "RANGE", "READ", "REGS", "RESUME", "RETURN", "SAVING",
  "SET", "SHIFT", "SNAP", "SPILL", "STOP", "SWAP", "SWITCH", "SYSTEM",
  "TABLE", "THEN", "THRU", "TO", "TRACE", "TYPE", "UNTIL", "USING",
  "VALID", "VARY", "VARYING", "VRBL", "WHILE", "WITH", "WITHIN", "XOR",
  "SYS-DD", "SYS-PROC", "SYS-PROC-REN", "END-SYS-DD", "END-SYS-PROC",
  "LOC-DD", "END-LOC-DD", "AUTO-DD", "END-AUTO-DD",
  "PROCEDURE", "END-PROC", "EXEC-PROC", "END-FUNCTION",
  "END-TABLE", "END-TYPE", "END-SWITCH",
  "EXTDEF", "EXTREF", "LOCREF", "TRANSREF",
  "CONVERTIN", "CONVERTOUT", "STRINGFORM", "INPUTLIST", "OUTPUTLIST",
  "P-SWITCH", "END-P-SW", "L-SWITCH", "SYS-INDEX", "LOC-INDEX",
  "LOAD-VRBL", "NOTFOUND", "FOUND", "CASE", "LOOP", "KEY1", "KEY2", "KEY3"]

/-- `CMS2SemanticParser.PREDEFINED_FUNCTIONS`. -/
def PREDEFINED_FUNCTIONS : List String := [
  "ACDS2", "BAMS", "FIRST", "DRF", "SCALF", "ACDS", "CNT", "ICDS",
  "POS", "SIN", "ALDG", "COMPF", "IEXP", "PRED", "SUCC", "ANDF",
  "CONF", "ISIN", "RAD", "TDEF", "ASIN2", "COS", "LAST", "ROTATEHP",
  "VECTORHP", "ASIN", "EXP", "LENGTH", "REM", "VECTORP", "ATAN2",
  "FIL", "LN", "ROTATEP", "XORF", "ATAN", "ICOS", "ALOG", "ACOS",
  "ACOS2"]

/-- The static table inside `_get_keyword_description`. -/
def keywordDescriptions : AList String := [
  ("VRBL", "Variable declaration"),
  ("TABLE", "Table (array/structure) declaration"),
  ("FIELD", "Field within a table or type"),
  ("TYPE", "Type definition"),
  ("PROCEDURE", "Procedure (subroutine) declaration"),
  ("FUNCTION", "Function declaration"),
  ("EXEC-PROC", "Executive procedure (runs in task state from executive)"),
  ("SYS-DD", "System Data Division - global data declarations"),
  ("SYS-PROC", "System Procedure block"),
  ("SYS-PROC-REN", "Re-entrant System Procedure block"),
  ("LOC-DD", "Local Data Division"),
  ("SET", "Assignment statement"),
  ("IF", "Conditional statement"),
  ("THEN", "Then clause of IF"),
  ("ELSE", "Else clause of IF"),
  ("ELSIF", "Else-if clause"),
  ("GOTO", "Unconditional branch"),
  ("RETURN", "Return from procedure/function"),
  ("EXIT", "Exit from loop"),
  ("STOP", "Stop program execution"),
  ("BEGIN", "Begin block"),
  ("END", "End block or loop"),
  ("VARY", "Counted loop (FOR loop)"),
  ("WHILE", "While loop"),
  ("LOOP", "General loop construct"),
  ("CASE", "Case/switch statement"),
  ("FIND", "Table search operation"),
  ("DIRECT", "Begin direct (assembly) code block"),
  ("INPUT", "Input parameter list"),
  ("OUTPUT", "Output parameter/statement"),
  ("CORAD", "Core address (memory address) function"),
  ("DENSE", "Dense packing mode"),
  ("MEDIUM", "Medium packing mode"),
  ("NONE", "No packing (word-aligned)"),
  ("INDIRECT", "Indirect table (pointer-based)"),
  ("EXTDEF", "External definition (exported)"),
  ("EXTREF", "External reference (imported)"),
  ("LOCREF", "Local reference"),
  ("TRANSREF", "Transient reference (uses transient base register)")]

/-- `_get_keyword_description`. -/
def keywordDescription (kw : String) : String :=
  (lookupA kw keywordDescriptions).getD ("CMS-2 keyword: " ++ kw)

/-- The static table inside `_get_predefined_description`. -/
def predefinedDescriptions : AList String := [
  ("SIN", "Sine function (floating-point)"),
  ("COS", "Cosine function (floating-point)"),
  ("ASIN", "Arcsine function"),
  ("ACOS", "Arccosine function"),
  ("ATAN", "Arctangent function"),
  ("ATAN2", "Two-argument arctangent"),
  ("EXP", "Exponential function (e^x)"),
  ("LN", "Natural logarithm"),
  ("ALOG", "Natural logarithm (alias)"),
  ("IEXP", "Fixed-point exponential"),
  ("ISIN", "Fixed-point sine"),
  ("ICOS", "Fixed-point cosine"),
  ("BAMS", "Radians to BAMS conversion"),
  ("RAD", "BAMS to radians conversion"),
  ("ABS", "Absolute value"),
  ("FIRST", "First value of status type"),
  ("LAST", "Last value of status type"),
  ("PRED", "Predecessor value"),
  ("SUCC", "Successor value"),
  ("LENGTH", "Length of character string"),
  ("CNT", "Count function"),
  ("REM", "Remainder function"),
  ("POS", "Position function")]

/-- `_get_predefined_description`. -/
def predefinedDescription (nm : String) : String :=
  (lookupA nm predefinedDescriptions).getD ("Predefined function: " ++ nm)

/-- The kind-tagged payloads `get_hover_info` can return (Python dicts with
    a `type` discriminator). -/
inductive HoverInfo where
  | varInfo (name : String) (cms2_type : String) (modifier : Option String) (line : Nat)
  | tableInfo (name : String) (table_type : String) (packing : String)
      (item_count : Option Nat) (fields : List String) (line_start line_end : Nat)
  | procInfo (name : String) (is_exec : Bool)
      (input_params output_params exit_params : List String) (line_start line_end : Nat)
  | funcInfo (name : String) (input_params : List String) (return_type : Option String)
      (line_start line_end : Nat)
  | typeInfo (name : String) (status_values : List String) (packing : String)
      (fields : List String) (line_start : Nat)
  | keywordInfo (name : String) (description : String)
  | predefinedInfo (name : String) (description : String)
deriving DecidableEq, Repr

/-- `CMS2SemanticParser.get_hover_info`, with the parser's `lines`
    explicit (the server sets `parser.lines` to the document's lines before
    every hover query). -/
def getHoverInfo (lines : List String) (m : Model) (line col : Nat) : Option HoverInfo :=
  match lines.get? line with
  | none => none
  | some cur =>
    match hoverWordAt cur.data col with
    | none => none
    | some word =>
      match getVariable m word with
      | some var => some (.varInfo var.name (formatType var) var.modifier var.line_number)
      | none =>
        match getTable m word with
        | some t =>
          some (.tableInfo t.name t.table_type t.packing t.item_count
            (keysOf t.fields) t.line_start t.line_end)
        | none =>
          match getProcedure m word with
          | some p =>
            some (.procInfo p.name p.is_exec p.input_params p.output_params
              p.exit_params p.line_start p.line_end)
          | none =>
            match getFunction m word with
            | some f =>
              some (.funcInfo f.name f.input_params f.return_type f.line_start f.line_end)
            | none =>
              match getType m word with
              | some td =>
                some (.typeInfo td.name td.status_values td.packing
                  (keysOf td.fields) td.line_start)
              | none =>
                if RESERVED_WORDS.contains word then
                  some (.keywordInfo word (keywordDescription word))
                else if PREDEFINED_FUNCTIONS.contains word then
                  some (.predefinedInfo word (predefinedDescription word))
                else none

/-- `CMS2LanguageServer._find_definition`: uppercase the name, then try the
    five entity registries in order. -/
def findDefinition (m : Model) (name : String) : Option Nat :=
  let nameU := upperS name
  match getVariable m nameU with
  | some v => some v.line_number
  | none =>
    match getTable m nameU with
    | some t => some t.line_start
    | none =>
      match getProcedure m nameU with
      | some p => some p.line_start
      | none =>
        match getFunction m nameU with
        | some f => some f.line_start
        | none => (getType m nameU).map (fun td => td.line_start)

/-! ## LSP dispatcher state (`cms2_lsp_server.py`) -/

/-- The per-URI state of `CMS2LanguageServer`: raw text, semantic model,
    parser instance (tracked here by its post-parse state). -/
structure ServerState where
  documents : AList String := []
  models : AList Model := []
  parsers : AList PState := []
deriving DecidableEq, Repr

/-- `_handle_did_close`: delete the URI from each map when present. -/
def handleDidClose (st : ServerState) (uri : String) : ServerState :=
  let docs := if containsKey uri st.documents then eraseKey uri st.documents else st.documents
  let mods := if containsKey uri st.models then eraseKey uri st.models else st.models
  let pars := if containsKey uri st.parsers then eraseKey uri st.parsers else st.parsers
  { documents := docs, models := mods, parsers := pars }

end CMS2

namespace CMS2

/-! ## Association-list lemmas -/

theorem lookupA_cons {α : Type} (j k : String) (v : α) (t : AList α) :
    lookupA j ((k, v) :: t) = if k = j then some v else lookupA j t := rfl

theorem lookupA_map_replace_ne {α : Type} (j k : String) (v : α) (t : AList α)
    (h : ¬ k = j) :
    lookupA j (t.map (fun e => if e.1 = k then (k, v) else e)) = lookupA j t := by
  induction t with
  | nil => rfl
  | cons e t ih =>
    obtain ⟨ek, ev⟩ := e
    simp only [List.map_cons]
    by_cases hk : ek = k
    · subst hk
      rw [if_pos rfl, lookupA_cons, lookupA_cons, if_neg h, if_neg (by exact h), ih]
    · rw [if_neg hk, lookupA_cons, lookupA_cons]
      by_cases hj : ek = j
      · rw [if_pos hj, if_pos hj]
      · rw [if_neg hj, if_neg hj, ih]

theorem insertA_cons_ne {α : Type} (k ek : String) (v ev : α) (t : AList α)
    (h : ¬ ek = k) :
    insertA k v ((ek, ev) :: t) = (ek, ev) :: insertA k v t := by
  unfold insertA
  have hck : containsKey k ((ek, ev) :: t) = containsKey k t := by
    simp [containsKey, lookupA, h]
  rw [hck]
  by_cases hc : containsKey k t = true
  · simp [hc, h]
  · simp [hc, h]

/-- Python dict update, observed through lookup. -/
theorem lookupA_insertA {α : Type} (j k : String) (v : α) (m : AList α) :
    lookupA j (insertA k v m) = if k = j then some v else lookupA j m := by
  induction m with
  | nil => simp [insertA, containsKey, lookupA]
  | cons e t ih =>
    obtain ⟨ek, ev⟩ := e
    by_cases hk : ek = k
    · subst hk
      have hc : containsKey ek ((ek, ev) :: t) = true := by
        simp [containsKey, lookupA]
      unfold insertA
      rw [hc]
      simp only [if_pos rfl, List.map_cons, if_true]
      rw [lookupA_cons]
      by_cases hj : ek = j
      · rw [if_pos hj, if_pos hj]
      · rw [if_neg hj, if_neg hj, lookupA_map_replace_ne j ek v t hj,
          lookupA_cons, if_neg hj]
    · rw [insertA_cons_ne k ek v ev t hk]
      rw [lookupA_cons, lookupA_cons]
      by_cases hj : ek = j
      · subst hj
        have hkj : ¬ k = ek := fun hh => hk hh.symm
        rw [if_pos rfl, if_neg hkj, if_pos rfl]
      · rw [if_neg hj, if_neg hj, ih]

theorem containsKey_insertA {α : Type} (j k : String) (v : α) (m : AList α) :
    containsKey j (insertA k v m) = true ↔ (k = j ∨ containsKey j m = true) := by
  unfold containsKey
  rw [lookupA_insertA]
  by_cases h : k = j <;> simp [h]

theorem containsKey_insertA_self {α : Type} (k : String) (v : α) (m : AList α) :
    containsKey k (insertA k v m) = true :=
  (containsKey_insertA k k v m).mpr (Or.inl rfl)

theorem containsKey_insertA_of {α : Type} (j k : String) (v : α) (m : AList α)
    (h : containsKey j m = true) : containsKey j (insertA k v m) = true :=
  (containsKey_insertA j k v m).mpr (Or.inr h)

theorem lookupA_eraseKey_self {α : Type} (k : String) (m : AList α) :
    lookupA k (eraseKey k m) = none := by
  induction m with
  | nil => rfl
  | cons e t ih =>
    obtain ⟨ek, ev⟩ := e
    by_cases h : ek = k
    · simpa [eraseKey, List.filter_cons, h] using ih
    · simpa [eraseKey, List.filter_cons, h, lookupA] using ih

theorem lookupA_eraseKey_ne {α : Type} (j k : String) (m : AList α) (h : ¬ j = k) :
    lookupA j (eraseKey k m) = lookupA j m := by
  induction m with
  | nil => rfl
  | cons e t ih =>
    obtain ⟨ek, ev⟩ := e
    by_cases hk : ek = k
    · subst hk
      have hne : ¬ ek = j := fun hh => h hh.symm
      simpa [eraseKey, List.filter_cons, lookupA, hne] using ih
    · by_cases hj : ek = j
      · subst hj
        have : ¬ ek = k := hk
        simp [eraseKey, List.filter_cons, lookupA, this]
      · simpa [eraseKey, List.filter_cons, lookupA, hk, hj] using ih


end CMS2

namespace CMS2

theorem eraseKey_of_not_contains {α : Type} (k : String) (m : AList α)
    (h : containsKey k m = false) : eraseKey k m = m := by
  induction m with
  | nil => rfl
  | cons e t ih =>
    obtain ⟨ek, ev⟩ := e
    have hek : ¬ ek = k := by
      intro hh
      subst hh
      simp [containsKey, lookupA] at h
    have ht : containsKey k t = false := by
      simpa [containsKey, lookupA, hek] using h
    simp [eraseKey, List.filter_cons, hek] at ih ⊢
    exact ih ht

/-! ## Claims -/

/-- Claim C10: handling a `textDocument/didClose` notification removes
    exactly the closed URI's entries from the `documents`, `models` and
    `parsers` maps, leaves every other URI's entries unchanged, and is a
    no-op (raising no error) when the URI holds no per-URI state. -/
theorem claim_C10 (st : ServerState) (uri : String) :
    ((handleDidClose st uri).documents = eraseKey uri st.documents ∧
     (handleDidClose st uri).models = eraseKey uri st.models ∧
     (handleDidClose st uri).parsers = eraseKey uri st.parsers) ∧
    (lookupA uri (handleDidClose st uri).documents = none ∧
     lookupA uri (handleDidClose st uri).models = none ∧
     lookupA uri (handleDidClose st uri).parsers = none) ∧
    (∀ u, ¬ u = uri →
      lookupA u (handleDidClose st uri).documents = lookupA u st.documents ∧
      lookupA u (handleDidClose st uri).models = lookupA u st.models ∧
      lookupA u (handleDidClose st uri).parsers = lookupA u st.parsers) ∧
    (containsKey uri st.documents = false → containsKey uri st.models = false →
     containsKey uri st.parsers = false → handleDidClose st uri = st) := by
  have e1 : (handleDidClose st uri).documents = eraseKey uri st.documents := by
    unfold handleDidClose
    by_cases h : containsKey uri st.documents = true
    · simp [h]
    · simp only []
      rw [if_neg (by simpa using h), eraseKey_of_not_contains uri st.documents
        (by simpa using h)]
  have e2 : (handleDidClose st uri).models = eraseKey uri st.models := by
    unfold handleDidClose
    by_cases h : containsKey uri st.models = true
    · simp [h]
    · simp only []
      rw [if_neg (by simpa using h), eraseKey_of_not_contains uri st.models
        (by simpa using h)]
  have e3 : (handleDidClose st uri).parsers = eraseKey uri st.parsers := by
    unfold handleDidClose
    by_cases h : containsKey uri st.parsers = true
    · simp [h]
    · simp only []
      rw [if_neg (by simpa using h), eraseKey_of_not_contains uri st.parsers
        (by simpa using h)]
  refine ⟨⟨e1, e2, e3⟩, ⟨?_, ?_, ?_⟩, ?_, ?_⟩
  · rw [e1, lookupA_eraseKey_self]
  · rw [e2, lookupA_eraseKey_self]
  · rw [e3, lookupA_eraseKey_self]
  · intro u hu
    exact ⟨by rw [e1, lookupA_eraseKey_ne u uri st.documents hu],
           by rw [e2, lookupA_eraseKey_ne u uri st.models hu],
           by rw [e3, lookupA_eraseKey_ne u uri st.parsers hu]⟩
  · intro h1 h2 h3
    have : handleDidClose st uri =
        ⟨st.documents, st.models, st.parsers⟩ := by
      rw [ServerState.mk.injEq]
      refine ⟨?_, ?_, ?_⟩
      · rw [e1, eraseKey_of_not_contains uri st.documents h1]
      · rw [e2, eraseKey_of_not_contains uri st.models h2]
      · rw [e3, eraseKey_of_not_contains uri st.parsers h3]
    rw [this]

/-- A two-document server state used by the C10 witness. -/
def witServerA : ServerState :=
  { documents := [("u1", "text1"), ("u2", "text2")],
    models := [("u1", ({} : Model))], parsers := [] }

/-- A server state without URI `u1`, used by the C10 witness. -/
def witServerB : ServerState :=
  { documents := [("u2", "text2")], models := [], parsers := [] }

/-- Witness for C10: closing `u1` keeps `u2` intact, and on a state without
    `u1` the close is a no-op. -/
theorem claim_C10_witness :
    (lookupA "u2" (handleDidClose witServerA "u1").documents =
      lookupA "u2" witServerA.documents) ∧
    handleDidClose witServerB "u1" = witServerB :=
  ⟨((claim_C10 witServerA "u1").2.2.1 "u2" (by decide)).1,
   (claim_C10 witServerB "u1").2.2.2 (by decide) (by decide) (by decide)⟩

end CMS2

namespace CMS2

/-- Claim C1 (code bug): on the spec's own example
    `"PROCEDURE UPDATE INPUT A, B OUTPUT C $\nEND-PROC UPDATE $"` the parser
    records procedure `UPDATE` with `is_exec = false` but with ALL
    parameter lists empty — not `input_params = [A, B]`,
    `output_params = [C]` as claimed: the lazy optional groups of the
    PROCEDURE regex never capture any parameter text (see
    `extractProcedure`). -/
theorem claim_C1 :
    (lookupA "UPDATE"
        (parse "PROCEDURE UPDATE INPUT A, B OUTPUT C $\nEND-PROC UPDATE $").procedures).map
      (fun p => (p.is_exec, p.input_params, p.output_params, p.exit_params)) =
    some (false, [], [], []) := by decide

/-- Claim C2, counterexample: `get_variable` performs no case
    canonicalisation, so on the model of `"VRBL X I 16 S $"` the lookup of
    `"x"` misses while `"X"` hits — the claimed equality of case variants
    fails. -/
theorem claim_C2_counterexample :
    getVariable (parse "VRBL X I 16 S $") "x" = none ∧
    (getVariable (parse "VRBL X I 16 S $") "X").isSome = true := by decide

/-- Claim C2 as amended: `get_variable` itself is case-sensitive
    exact-match; the case-insensitivity the spec describes is realised one
    layer up, where the server uppercases the queried name before lookup
    (`_find_definition`, and likewise hover/word extraction).  Resolution
    through `_find_definition` is therefore invariant across case variants
    of the name. -/
theorem claim_C2 (m : Model) (a b : String) (h : upperS a = upperS b) :
    findDefinition m a = findDefinition m b := by
  unfold findDefinition
  rw [h]

/-- Witness for C2: on the model of `"VRBL X I 16 S $"`, definition lookup
    of `"x"` and `"X"` agree. -/
theorem claim_C2_witness :
    findDefinition (parse "VRBL X I 16 S $") "x" =
    findDefinition (parse "VRBL X I 16 S $") "X" :=
  claim_C2 (parse "VRBL X I 16 S $") "x" "X" (by decide)

/-- Claim C3 (code bug): the grouped form `VRBL (lat, lon) A 32 S 16 $`
    stores its names in original (lower) case — `_parse_vrbl_declaration`
    omits `.upper()` on the grouped name list, unlike every other
    declaration path — so the registry keys `lat`, `lon` are not uppercase
    and the uppercase key `LAT` is absent. -/
theorem claim_C3 :
    keysOf (parse "VRBL (lat, lon) A 32 S 16 $").vars = ["lat", "lon"] ∧
    containsKey "LAT" (parse "VRBL (lat, lon) A 32 S 16 $").vars = false ∧
    ¬ upperS "lat" = "lat" := by decide

/-- Claim C5, counterexample: the span test
    `match.start() <= character <= match.end()` is inclusive at the right
    end, so a query at column 3 of the line `"ABC"` — the end-of-line
    position — still returns the identifier `ABC`, contradicting the claim
    that an end-of-line query returns no identifier. -/
theorem claim_C5_counterexample :
    getWordAtPosition "ABC" 3 = some "ABC" := by decide

/-- A word run produced by the scanner never extends past the end of the
    scanned text. -/
theorem wordRunsGo_span_le :
    ∀ (fuel pos : Nat) (l : List Char) (p : Nat × List Char),
      p ∈ wordRunsGo fuel pos l → p.1 + p.2.length ≤ pos + l.length := by
  intro fuel
  induction fuel with
  | zero =>
    intro pos l p h
    simp [wordRunsGo] at h
  | succ n ih =>
    intro pos l p h
    cases l with
    | nil => simp [wordRunsGo] at h
    | cons c cs =>
      have hsplit : (cs.takeWhile wordChar).length + (cs.dropWhile wordChar).length
          = cs.length := by
        conv_rhs => rw [← List.takeWhile_append_dropWhile (p := wordChar) (l := cs)]
        rw [List.length_append]
      unfold wordRunsGo at h
      by_cases hw : wordChar c = true
      · rw [if_pos hw] at h
        rcases List.mem_cons.mp h with h1 | h2
        · subst h1
          simp only [List.length_cons]
          have : (cs.takeWhile wordChar).length ≤ cs.length :=
            le_of_le_of_eq (Nat.le_add_right _ _) hsplit
          omega
        · have := ih (pos + (c :: cs.takeWhile wordChar).length)
            (cs.dropWhile wordChar) p h2
          simp only [List.length_cons] at this ⊢
          omega
      · rw [if_neg hw] at h
        have := ih (pos + 1) cs p h
        simp only [List.length_cons]
        omega

/-- Claim C5 as amended: a query at a column strictly greater than the
    line length returns no identifier; at a column equal to the line
    length (end-of-line) an identifier ending at the last character is
    still returned, because the span containment test is inclusive at both
    ends. -/
theorem claim_C5 (line : String) (c : Nat) (h : line.length < c) :
    getWordAtPosition line c = none := by
  unfold getWordAtPosition
  cases hfind : (serverWordMatches line.data).find?
      (fun p => decide (p.1 ≤ c ∧ c ≤ p.1 + p.2.length)) with
  | none => rfl
  | some p =>
    exfalso
    have hpred := List.find?_some hfind
    have hmem := List.mem_of_find?_eq_some hfind
    have hmem' : p ∈ wordRuns line.data := List.mem_of_mem_filter hmem
    have hspan := wordRunsGo_span_le line.data.length 0 line.data p hmem'
    have hc : p.1 ≤ c ∧ c ≤ p.1 + p.2.length := of_decide_eq_true hpred
    have hlen : line.length = line.data.length := rfl
    omega

/-- Witness for C5: a query past the end of `"AB"` yields nothing. -/
theorem claim_C5_witness : getWordAtPosition "AB" 5 = none :=
  claim_C5 "AB" 5 (by decide)

/-- Claim C7 (code bug): hover word extraction uses the pattern
    `[A-Z][A-Z0-9]*` without underscore (unlike the server's
    `_get_word_at_position`), and its `\b` anchors make an
    underscore-containing identifier yield no match at all: hovering at
    column 7, inside `STATUS_OK` on `"VRBL STATUS_OK B $"`, resolves to no
    identifier even though `STATUS_OK` is a declared variable, while the
    server-side extractor does return the whole identifier. -/
theorem claim_C7 :
    getHoverInfo ["VRBL STATUS_OK B $"] (parse "VRBL STATUS_OK B $") 0 7 = none ∧
    getWordAtPosition "VRBL STATUS_OK B $" 7 = some "STATUS_OK" ∧
    containsKey "STATUS_OK" (parse "VRBL STATUS_OK B $").vars = true := by decide

end CMS2


namespace CMS2

/-- Unfolding of the scan at a `''` pair. -/
theorem rcAux_pair (f : Bool) (z : List Char) :
    rcAux f ('\'' :: '\'' :: z) = rcAux (!f) z := by
  show (if ('\'' : Char) = '\'' ∧ ('\'' : Char) = '\'' then rcAux (!f) z
    else if f then rcAux f ('\'' :: z) else '\'' :: rcAux f ('\'' :: z)) = rcAux (!f) z
  rw [if_pos ⟨rfl, rfl⟩]

/-- Unfolding of the scan flag at a `''` pair. -/
theorem rcFlag_pair (f : Bool) (z : List Char) :
    rcFlag f ('\'' :: '\'' :: z) = rcFlag (!f) z := by
  show (if ('\'' : Char) = '\'' ∧ ('\'' : Char) = '\'' then rcFlag (!f) z
    else rcFlag f ('\'' :: z)) = rcFlag (!f) z
  rw [if_pos ⟨rfl, rfl⟩]

/-- Unfolding of the scan at a non-pair position. -/
theorem rcAux_step (f : Bool) (c d : Char) (rest : List Char)
    (h : ¬ (c = '\'' ∧ d = '\'')) :
    rcAux f (c :: d :: rest) =
      if f then rcAux f (d :: rest) else c :: rcAux f (d :: rest) := by
  show (if c = '\'' ∧ d = '\'' then rcAux (!f) rest
    else if f then rcAux f (d :: rest) else c :: rcAux f (d :: rest)) = _
  rw [if_neg h]

/-- Unfolding of the scan flag at a non-pair position. -/
theorem rcFlag_step (f : Bool) (c d : Char) (rest : List Char)
    (h : ¬ (c = '\'' ∧ d = '\'')) :
    rcFlag f (c :: d :: rest) = rcFlag f (d :: rest) := by
  show (if c = '\'' ∧ d = '\'' then rcFlag (!f) rest else rcFlag f (d :: rest)) = _
  rw [if_neg h]

/-- The comment scan splits over concatenation when the left part does not
    end in an apostrophe, so that no `''` pair straddles the boundary. -/
theorem rcAux_append_n :
    ∀ (n : Nat) (f : Bool) (a : List Char), a.length ≤ n →
      ∀ (x : List Char), a.getLast? ≠ some '\'' →
        rcAux f (a ++ x) = rcAux f a ++ rcAux (rcFlag f a) x := by
  intro n
  induction n with
  | zero =>
    intro f a ha x h
    have : a = [] := List.eq_nil_of_length_eq_zero (Nat.le_zero.mp ha)
    subst this
    simp [rcAux, rcFlag]
  | succ n ih =>
    intro f a ha x h
    cases a with
    | nil => simp [rcAux, rcFlag]
    | cons c a' =>
      cases a' with
      | nil =>
        have hc : ¬ c = '\'' := by simpa using h
        cases x with
        | nil => simp [rcAux, rcFlag]
        | cons d x' =>
          have hcd : ¬ (c = '\'' ∧ d = '\'') := fun hp => hc hp.1
          show rcAux f (c :: d :: x') = rcAux f [c] ++ rcAux (rcFlag f [c]) (d :: x')
          rw [rcAux_step f c d x' hcd]
          cases f <;> simp [rcAux, rcFlag]
      | cons d a'' =>
        by_cases hcd : c = '\'' ∧ d = '\''
        · obtain ⟨hc, hd⟩ := hcd
          subst hc
          subst hd
          cases a'' with
          | nil => simp at h
          | cons r rs =>
            have hlast : (r :: rs).getLast? ≠ some '\'' := by
              rwa [List.getLast?_cons_cons, List.getLast?_cons_cons] at h
            have hlen : (r :: rs).length ≤ n := by
              simp only [List.length_cons] at ha ⊢
              omega
            have step := ih f.not (r :: rs) hlen x hlast
            calc rcAux f (('\'' :: '\'' :: (r :: rs)) ++ x)
                = rcAux (!f) ((r :: rs) ++ x) := rcAux_pair f _
              _ = rcAux (!f) (r :: rs) ++ rcAux (rcFlag (!f) (r :: rs)) x := step
              _ = rcAux f ('\'' :: '\'' :: (r :: rs)) ++
                    rcAux (rcFlag f ('\'' :: '\'' :: (r :: rs))) x := by
                  rw [rcAux_pair, rcFlag_pair]
        · have hlast : (d :: a'').getLast? ≠ some '\'' := by
            rwa [List.getLast?_cons_cons] at h
          have hlen : (d :: a'').length ≤ n := by
            simp only [List.length_cons] at ha ⊢
            omega
          have step := ih f (d :: a'') hlen x hlast
          have lhs : rcAux f ((c :: d :: a'') ++ x) =
              if f then rcAux f ((d :: a'') ++ x)
              else c :: rcAux f ((d :: a'') ++ x) :=
            rcAux_step f c d (a'' ++ x) hcd
          rw [lhs, step, rcAux_step f c d a'' hcd, rcFlag_step f c d a'' hcd]
          cases f <;> simp

/-- A quote-free segment scanned in comment state contributes nothing and
    leaves the flag set. -/
theorem rcAux_inComment :
    ∀ (cl : List Char), ¬ '\'' ∈ cl →
      rcAux true cl = [] ∧ rcFlag true cl = true := by
  intro cl
  induction cl with
  | nil => intro _; exact ⟨rfl, rfl⟩
  | cons c cs ih =>
    intro h
    have hc : ¬ c = '\'' := by
      intro hh
      exact h (by rw [hh]; exact List.mem_cons_self _ _)
    have hcs : ¬ '\'' ∈ cs := fun hm => h (List.mem_cons_of_mem _ hm)
    cases cs with
    | nil => exact ⟨by simp [rcAux], rfl⟩
    | cons d cs' =>
      obtain ⟨ha, hf⟩ := ih hcs
      have hcd : ¬ (c = '\'' ∧ d = '\'') := fun hp => hc hp.1
      refine ⟨?_, ?_⟩
      · rw [rcAux_step true c d cs' hcd]
        simpa using ha
      · rw [rcFlag_step true c d cs' hcd]
        exact hf

/-- No quote in the list means the last character is not a quote. -/
theorem getLast?_ne_quote_of_no_quote :
    ∀ (cl : List Char), ¬ '\'' ∈ cl → cl.getLast? ≠ some '\'' := by
  intro cl
  induction cl with
  | nil => intro _; simp
  | cons c cs ih =>
    intro h
    have hc : ¬ c = '\'' := by
      intro hh
      exact h (by rw [hh]; exact List.mem_cons_self _ _)
    have hcs : ¬ '\'' ∈ cs := fun hm => h (List.mem_cons_of_mem _ hm)
    cases cs with
    | nil => simpa using hc
    | cons d cs' =>
      rw [List.getLast?_cons_cons]
      exact ih hcs

/-- Inserting a paired-apostrophe comment (`''…''` with quote-free body)
    into a line does not change `_remove_comments`' output, provided the
    text before the comment neither ends in an apostrophe nor leaves the
    scan inside a comment. -/
theorem removeComments_insert_comment (a c b : List Char)
    (h1 : a.getLast? ≠ some '\'') (h2 : ¬ '\'' ∈ c)
    (h3 : rcFlag false a = false) :
    removeComments (a ++ '\'' :: '\'' :: (c ++ '\'' :: '\'' :: b)) =
      removeComments (a ++ b) := by
  obtain ⟨hc1, hc2⟩ := rcAux_inComment c h2
  have hclast := getLast?_ne_quote_of_no_quote c h2
  unfold removeComments
  rw [rcAux_append_n a.length false a le_rfl _ h1, h3]
  rw [rcAux_pair]
  rw [show (!false) = true from rfl]
  rw [rcAux_append_n c.length true c le_rfl _ hclast]
  rw [hc1, hc2, rcAux_pair]
  rw [rcAux_append_n a.length false a le_rfl b h1, h3]
  simp

/-- The parse loop reads a line only through `_remove_comments`: two
    line lists with equal stripped images fold to the same state. -/
theorem procLines_congr :
    ∀ (l1 l2 : List (List Char)) (i : Nat) (acc : PState × List Char),
      l1.map removeComments = l2.map removeComments →
      (List.enumFrom i l1).foldl
          (fun acc p => procLineCore acc (p.1, removeComments p.2)) acc =
      (List.enumFrom i l2).foldl
          (fun acc p => procLineCore acc (p.1, removeComments p.2)) acc := by
  intro l1
  induction l1 with
  | nil =>
    intro l2 i acc h
    cases l2 with
    | nil => rfl
    | cons y ys => simp at h
  | cons x xs ih =>
    intro l2 i acc h
    cases l2 with
    | nil => simp at h
    | cons y ys =>
      simp only [List.map_cons, List.cons.injEq] at h
      obtain ⟨hx, hxs⟩ := h
      rw [List.enumFrom_cons, List.enumFrom_cons, List.foldl_cons, List.foldl_cons]
      have : procLineCore acc (i, removeComments x) =
          procLineCore acc (i, removeComments y) := by rw [hx]
      simp only []
      rw [this]
      exact ih ys (i + 1) _ hxs

/-- Parsing depends on the document only through the per-line
    comment-stripped text. -/
theorem parse_congr (d1 d2 : String)
    (h : (splitOnChar '\n' d1.data).map removeComments =
         (splitOnChar '\n' d2.data).map removeComments) :
    parse d1 = parse d2 := by
  unfold parse parseChars
  have := procLines_congr (splitOnChar '\n' d1.data) (splitOnChar '\n' d2.data)
    0 (({} : PState), ([] : List Char)) h
  exact congrArg (fun s => s.1.model) this

/-- Claim C4: a `$` inside a paired-apostrophe comment never terminates a
    statement.  (1) The parse factors through per-line comment stripping:
    documents with equal stripped lines parse identically.  (2) Inserting
    a comment `''…''` with quote-free body into a line leaves the stripped
    line unchanged (under the stated boundary conditions), so by (1) it
    leaves the whole parse unchanged.  (3) On the spec's example
    `"VRBL X I 16 S '' cost $ now '' $"` the parse yields exactly one
    variable `X` (of mode INTEGER, 16 bits, signed): the commented `$`
    did not terminate the statement early. -/
theorem claim_C4 :
    (∀ d1 d2 : String,
      (splitOnChar '\n' d1.data).map removeComments =
        (splitOnChar '\n' d2.data).map removeComments →
      parse d1 = parse d2) ∧
    (∀ (a c b : List Char), a.getLast? ≠ some '\'' → ¬ '\'' ∈ c →
      rcFlag false a = false →
      removeComments (a ++ '\'' :: '\'' :: (c ++ '\'' :: '\'' :: b)) =
        removeComments (a ++ b)) ∧
    (parse "VRBL X I 16 S '' cost $ now '' $").vars =
      [("X", { name := "X", var_type := CMS2Type.INTEGER, bits := some 16 })] :=
  ⟨parse_congr, removeComments_insert_comment, by decide⟩

/-- Witness for C4: deleting the comment from the example document leaves
    the parse unchanged, and the line-level insertion lemma holds on a
    concrete line. -/
theorem claim_C4_witness :
    parse "VRBL X '' cost $ now '' I 16 S $" = parse "VRBL X  I 16 S $" ∧
    removeComments ("AB ".data ++ '\'' :: '\'' :: (" x$y ".data ++ '\'' :: '\'' :: " C".data)) =
      removeComments ("AB ".data ++ " C".data) :=
  ⟨claim_C4.1 "VRBL X '' cost $ now '' I 16 S $" "VRBL X  I 16 S $" (by decide),
   claim_C4.2.1 "AB ".data " x$y ".data " C".data (by decide) (by decide) (by decide)⟩

end CMS2

namespace CMS2

/-- Claim C6, counterexample: parsing `"\nDDX SYS-DD $"` opens block `DDX`
    at line 1 and sees no `END-SYS-DD`; the block's `line_end` is 0 (the
    dataclass default), not `line_start` = 1 as the claim states. -/
theorem claim_C6_counterexample :
    (lookupA "DDX" (parse "\nDDX SYS-DD $").sys_data_blocks).map
      (fun b => (b.line_start, b.line_end)) = some (1, 0) := by decide

/-- Claim C6 as amended: for each block-like entity kind, the opener stores
    the entity with `line_start` = the opening line and `line_end` = 0
    (the dataclass default — equal to `line_start` only for blocks opened
    on line 0); the matching close handler sets `line_end` to the closing
    statement's line exactly when a block of that kind is currently open
    (the LSP layer renders `line_end or line_start`); with no open block
    the close handler leaves the registry unchanged. -/
theorem claim_C6 :
    (∀ (st : PState) (s : List Char) (n : Nat) (nm : String),
      matchSysDd s = some nm →
      lookupA nm (parseSysDdStart st s n).model.sys_data_blocks =
        some { name := nm, line_start := n, line_end := 0 }) ∧
    (∀ (st : PState) (n : Nat) (nm : String) (b : SystemDataBlock),
      st.current_sys_dd = some nm →
      lookupA nm st.model.sys_data_blocks = some b →
      lookupA nm (handleEndSysDd st n).model.sys_data_blocks =
        some { b with line_end := n }) ∧
    (∀ (st : PState) (n : Nat), st.current_sys_dd = none →
      (handleEndSysDd st n).model.sys_data_blocks = st.model.sys_data_blocks) ∧
    (∀ (st : PState) (s : List Char) (n : Nat) (nm : String),
      matchSysProc s = some nm →
      lookupA nm (parseSysProcStart st s n).model.sys_proc_blocks =
        some { name := nm, is_reentrant := hasSub "SYS-PROC-REN".data (upStr s),
               line_start := n, line_end := 0 }) ∧
    (∀ (st : PState) (n : Nat) (nm : String) (b : SystemProcBlock),
      st.current_sys_proc = some nm →
      lookupA nm st.model.sys_proc_blocks = some b →
      lookupA nm (handleEndSysProc st n).model.sys_proc_blocks =
        some { b with line_end := n }) ∧
    (∀ (st : PState) (n : Nat), st.current_sys_proc = none →
      (handleEndSysProc st n).model.sys_proc_blocks = st.model.sys_proc_blocks) ∧
    (∀ (st : PState) (s : List Char) (n : Nat) (tm : TableMatch),
      extractTable (strip s) = some tm →
      (lookupA (⟨upStr tm.nm⟩ : String) (parseTableDecl st s n).model.tables).map
        (fun t => (t.line_start, t.line_end)) = some (n, 0)) ∧
    (∀ (st : PState) (n : Nat) (nm : String) (tb : TableDefinition),
      st.current_table = some nm →
      lookupA nm st.model.tables = some tb →
      lookupA nm (handleEndTable st n).model.tables =
        some { tb with line_end := n }) ∧
    (∀ (st : PState) (n : Nat), st.current_table = none →
      (handleEndTable st n).model.tables = st.model.tables) ∧
    (∀ (st : PState) (s : List Char) (n : Nat) (nm : List Char) (pk : Option String),
      hasSub ['\''] (strip s) = false →
      extractTypeStructured (strip s) = some (nm, pk) →
      (lookupA (⟨upStr nm⟩ : String) (parseTypeDecl st s n).model.types).map
        (fun t => (t.line_start, t.line_end)) = some (n, 0)) ∧
    (∀ (st : PState) (s : List Char) (n : Nat) (nm rest : List Char),
      hasSub ['\''] (strip s) = true →
      extractTypeStatus (strip s) = some (nm, rest) →
      (lookupA (⟨upStr nm⟩ : String) (parseTypeDecl st s n).model.types).map
        (fun t => (t.line_start, t.line_end)) = some (n, 0)) ∧
    (∀ (st : PState) (n : Nat) (nm : String) (td : TypeDefinition),
      st.current_type = some nm →
      lookupA nm st.model.types = some td →
      lookupA nm (handleEndType st n).model.types =
        some { td with line_end := n }) ∧
    (∀ (st : PState) (n : Nat), st.current_type = none →
      (handleEndType st n).model.types = st.model.types) ∧
    (∀ (st : PState) (s : List Char) (n : Nat) (pr : String × Bool),
      extractProcedure
        ((stripModifier ["(EXTDEF)", "(EXTREF)", "(LOCREF)", "(TRANSREF)"] (strip s)).2) =
        some pr →
      (lookupA pr.1 (parseProcDecl st s n).model.procedures).map
        (fun p => (p.line_start, p.line_end)) = some (n, 0)) ∧
    (∀ (st : PState) (s : List Char) (n : Nat) (pr : String × Option (List Char)),
      extractExecProc ((stripModifier ["(EXTDEF)", "(EXTREF)"] (strip s)).2) = some pr →
      (lookupA pr.1 (parseExecProcDecl st s n).model.procedures).map
        (fun p => (p.line_start, p.line_end)) = some (n, 0)) ∧
    (∀ (st : PState) (n : Nat) (nm : String) (p : ProcedureDefinition),
      st.current_procedure = some nm →
      lookupA nm st.model.procedures = some p →
      lookupA nm (handleEndProc st n).model.procedures =
        some { p with line_end := n }) ∧
    (∀ (st : PState) (n : Nat), st.current_procedure = none →
      (handleEndProc st n).model.procedures = st.model.procedures) ∧
    (∀ (st : PState) (s : List Char) (n : Nat)
        (fr : String × List Char × Option (List Char)),
      extractFunction
        ((stripModifier ["(EXTDEF)", "(EXTREF)", "(LOCREF)", "(TRANSREF)"] (strip s)).2) =
        some fr →
      (lookupA fr.1 (parseFunctionDecl st s n).model.functions).map
        (fun f => (f.line_start, f.line_end)) = some (n, 0)) ∧
    (∀ (st : PState) (n : Nat) (nm : String) (f : FunctionDefinition),
      st.current_function = some nm →
      lookupA nm st.model.functions = some f →
      lookupA nm (handleEndFunction st n).model.functions =
        some { f with line_end := n }) ∧
    (∀ (st : PState) (n : Nat), st.current_function = none →
      (handleEndFunction st n).model.functions = st.model.functions) := by
  refine ⟨?_, ?_, ?_, ?_, ?_, ?_, ?_, ?_, ?_, ?_, ?_, ?_, ?_, ?_, ?_, ?_, ?_, ?_, ?_, ?_⟩
  · intro st s n nm h
    unfold parseSysDdStart
    rw [h]
    simp [lookupA_insertA]
  · intro st n nm b hc hl
    unfold handleEndSysDd
    rw [hc]
    simp only []
    rw [hl]
    simp [lookupA_insertA]
  · intro st n hc
    unfold handleEndSysDd
    rw [hc]
  · intro st s n nm h
    unfold parseSysProcStart
    rw [h]
    simp [lookupA_insertA]
  · intro st n nm b hc hl
    unfold handleEndSysProc
    rw [hc]
    simp only []
    rw [hl]
    simp [lookupA_insertA]
  · intro st n hc
    unfold handleEndSysProc
    rw [hc]
  · intro st s n tm h
    unfold parseTableDecl
    simp only [h]
    cases hcd : st.current_sys_dd with
    | none => simp [lookupA_insertA]
    | some d =>
      simp only []
      split
      · simp [lookupA_insertA]
      · simp [lookupA_insertA]
  · intro st n nm tb hc hl
    unfold handleEndTable
    rw [hc]
    simp only []
    rw [hl]
    simp [lookupA_insertA]
  · intro st n hc
    unfold handleEndTable
    rw [hc]
  · intro st s n nm pk hq h
    unfold parseTypeDecl
    simp only [hq, h]
    simp [lookupA_insertA]
  · intro st s n nm rest hq h
    unfold parseTypeDecl
    simp only [hq, h, if_true]
    cases hcd : st.current_sys_dd with
    | none => simp [lookupA_insertA]
    | some d =>
      simp only []
      split
      · simp [lookupA_insertA]
      · simp [lookupA_insertA]
  · intro st n nm td hc hl
    unfold handleEndType
    rw [hc]
    simp only []
    rw [hl]
    simp [lookupA_insertA]
  · intro st n hc
    unfold handleEndType
    rw [hc]
  · intro st s n pr h
    unfold parseProcDecl
    obtain ⟨nm, flag⟩ := pr
    rcases hsm : stripModifier ["(EXTDEF)", "(EXTREF)", "(LOCREF)", "(TRANSREF)"]
      (strip s) with ⟨mod, stmt⟩
    rw [hsm] at h
    simp only at h
    simp only [hsm, h]
    cases hcp : st.current_sys_proc with
    | none => simp [lookupA_insertA]
    | some sp =>
      simp only []
      split
      · simp [lookupA_insertA]
      · simp [lookupA_insertA]
  · intro st s n pr h
    unfold parseExecProcDecl
    obtain ⟨nm, g2⟩ := pr
    rcases hsm : stripModifier ["(EXTDEF)", "(EXTREF)"] (strip s) with ⟨mod, stmt⟩
    rw [hsm] at h
    simp only at h
    simp only [hsm, h]
    simp [lookupA_insertA]
  · intro st n nm p hc hl
    unfold handleEndProc
    rw [hc]
    simp only []
    rw [hl]
    simp [lookupA_insertA]
  · intro st n hc
    unfold handleEndProc
    rw [hc]
  · intro st s n fr h
    unfold parseFunctionDecl
    obtain ⟨nm, inner, g3⟩ := fr
    rcases hsm : stripModifier ["(EXTDEF)", "(EXTREF)", "(LOCREF)", "(TRANSREF)"]
      (strip s) with ⟨mod, stmt⟩
    rw [hsm] at h
    simp only at h
    simp only [hsm, h]
    simp [lookupA_insertA]
  · intro st n nm f hc hl
    unfold handleEndFunction
    rw [hc]
    simp only []
    rw [hl]
    simp [lookupA_insertA]
  · intro st n hc
    unfold handleEndFunction
    rw [hc]

end CMS2

namespace CMS2

/-- A parser state with an open table, used by the C6 witness. -/
def witPStateTable : PState :=
  { model := { tables := [("WP", { name := "WP", line_start := 2 })] },
    current_table := some "WP" }

/-- Witness for C6: a SYS-DD opener stores `line_end` 0 at `line_start` 5;
    closing an open table at line 9 sets its `line_end`; `END-PROC` with no
    open procedure changes nothing; a PROCEDURE opener stores `line_end`
    0. -/
theorem claim_C6_witness :
    lookupA "DDX" (parseSysDdStart ({} : PState) "DDX SYS-DD".data 5).model.sys_data_blocks =
      some { name := "DDX", line_start := 5, line_end := 0 } ∧
    lookupA "WP" (handleEndTable witPStateTable 9).model.tables =
      some { name := "WP", line_start := 2, line_end := 9 } ∧
    (handleEndProc ({} : PState) 4).model.procedures = ({} : PState).model.procedures ∧
    (lookupA "UPD" (parseProcDecl ({} : PState) "PROCEDURE UPD INPUT A, B".data 3).model.procedures).map
      (fun p => (p.line_start, p.line_end)) = some (3, 0) := by
  obtain ⟨h1, h2, h3, h4, h5, h6, h7, h8, h9, h10, h11, h12, h13, h14, h15, h16, h17,
    h18, h19, h20⟩ := claim_C6
  refine ⟨?_, ?_, ?_, ?_⟩
  · exact h1 ({} : PState) "DDX SYS-DD".data 5 "DDX" (by decide)
  · exact h8 witPStateTable 9 "WP" { name := "WP", line_start := 2 } rfl (by decide)
  · exact h17 ({} : PState) 4 rfl
  · exact h14 ({} : PState) "PROCEDURE UPD INPUT A, B".data 3 ("UPD", true) (by decide)

end CMS2

namespace CMS2

/-! ## The block-to-registry containment invariant (claim C8) -/

/-- Whether key `k` appears in the sub-index `f` of the block stored under
    `nm` in `blocks`. -/
def blockSub {α β : Type} (f : β → AList α) (blocks : AList β) (nm k : String) : Bool :=
  match lookupA nm blocks with
  | some b => containsKey k (f b)
  | none => false

/-- Every identifier indexed inside a SYS-DD block (variables, tables,
    types) or a SYS-PROC block (procedures) is also a key of the
    corresponding top-level registry. -/
def RegInv (m : Model) : Prop :=
  (∀ nm k, blockSub SystemDataBlock.vars m.sys_data_blocks nm k = true →
    containsKey k m.vars = true) ∧
  (∀ nm k, blockSub SystemDataBlock.tables m.sys_data_blocks nm k = true →
    containsKey k m.tables = true) ∧
  (∀ nm k, blockSub SystemDataBlock.types m.sys_data_blocks nm k = true →
    containsKey k m.types = true) ∧
  (∀ nm k, blockSub SystemProcBlock.procedures m.sys_proc_blocks nm k = true →
    containsKey k m.procedures = true)

theorem blockSub_insert {α β : Type} (f : β → AList α) (blocks : AList β)
    (d : String) (blk' : β) (nm k : String)
    (h : blockSub f (insertA d blk' blocks) nm k = true) :
    (d = nm ∧ containsKey k (f blk') = true) ∨ blockSub f blocks nm k = true := by
  unfold blockSub at h ⊢
  rw [lookupA_insertA] at h
  by_cases hd : d = nm
  · rw [if_pos hd] at h
    exact Or.inl ⟨hd, h⟩
  · rw [if_neg hd] at h
    exact Or.inr h

theorem blockSub_of_lookup {α β : Type} (f : β → AList α) (blocks : AList β)
    (d : String) (blk : β) (k : String)
    (hl : lookupA d blocks = some blk) (hk : containsKey k (f blk) = true) :
    blockSub f blocks d k = true := by
  unfold blockSub
  rw [hl]
  exact hk

/-- Transport of the invariant along a model transformation, given key
    monotonicity of the four registries and a tracing property for the
    block indexes. -/
theorem RegInv.of {m m' : Model}
    (hv : ∀ k, containsKey k m.vars = true → containsKey k m'.vars = true)
    (ht : ∀ k, containsKey k m.tables = true → containsKey k m'.tables = true)
    (hy : ∀ k, containsKey k m.types = true → containsKey k m'.types = true)
    (hp : ∀ k, containsKey k m.procedures = true → containsKey k m'.procedures = true)
    (hbv : ∀ nm k, blockSub SystemDataBlock.vars m'.sys_data_blocks nm k = true →
      blockSub SystemDataBlock.vars m.sys_data_blocks nm k = true ∨
        containsKey k m'.vars = true)
    (hbt : ∀ nm k, blockSub SystemDataBlock.tables m'.sys_data_blocks nm k = true →
      blockSub SystemDataBlock.tables m.sys_data_blocks nm k = true ∨
        containsKey k m'.tables = true)
    (hby : ∀ nm k, blockSub SystemDataBlock.types m'.sys_data_blocks nm k = true →
      blockSub SystemDataBlock.types m.sys_data_blocks nm k = true ∨
        containsKey k m'.types = true)
    (hbp : ∀ nm k, blockSub SystemProcBlock.procedures m'.sys_proc_blocks nm k = true →
      blockSub SystemProcBlock.procedures m.sys_proc_blocks nm k = true ∨
        containsKey k m'.procedures = true)
    (h : RegInv m) : RegInv m' := by
  obtain ⟨h1, h2, h3, h4⟩ := h
  refine ⟨?_, ?_, ?_, ?_⟩ <;> intro nm k hk
  · rcases hbv nm k hk with hh | hh
    · exact hv k (h1 nm k hh)
    · exact hh
  · rcases hbt nm k hk with hh | hh
    · exact ht k (h2 nm k hh)
    · exact hh
  · rcases hby nm k hk with hh | hh
    · exact hy k (h3 nm k hh)
    · exact hh
  · rcases hbp nm k hk with hh | hh
    · exact hp k (h4 nm k hh)
    · exact hh

end CMS2

namespace CMS2

/-- Replacing a block whose sub-index `f` is unchanged preserves
    `blockSub f`. -/
theorem blockSub_insert_same {α β : Type} (f : β → AList α) (blocks : AList β)
    (d : String) {blk' blk : β} (hld : lookupA d blocks = some blk)
    (hsame : f blk' = f blk) :
    ∀ nm k, blockSub f (insertA d blk' blocks) nm k = true →
      blockSub f blocks nm k = true := by
  intro nm k hk
  rcases blockSub_insert f blocks d blk' nm k hk with ⟨hd, hk'⟩ | hold
  · rw [hsame] at hk'
    rw [← hd]
    exact blockSub_of_lookup f blocks d blk k hld hk'
  · exact hold

/-- Replacing a block whose sub-index `f` gained exactly the key `name`
    traces every key either to the old block index or to a registry `top`
    known to contain `name`. -/
theorem blockSub_insert_grow {α β : Type} (f : β → AList α) (blocks : AList β)
    (d : String) {name : String} {var : α} {blk' blk : β} (top : AList α)
    (hld : lookupA d blocks = some blk)
    (hgrew : f blk' = insertA name var (f blk))
    (htop : containsKey name top = true) :
    ∀ nm k, blockSub f (insertA d blk' blocks) nm k = true →
      blockSub f blocks nm k = true ∨ containsKey k top = true := by
  intro nm k hk
  rcases blockSub_insert f blocks d blk' nm k hk with ⟨hd, hk'⟩ | hold
  · rw [hgrew] at hk'
    rcases (containsKey_insertA k name var (f blk)).mp hk' with he | hkb
    · subst he
      exact Or.inr htop
    · refine Or.inl ?_
      rw [← hd]
      exact blockSub_of_lookup f blocks d blk k hld hkb
  · exact Or.inl hold

/-- Inserting a block with an empty sub-index `f` adds nothing to
    `blockSub f`. -/
theorem blockSub_insert_empty {α β : Type} (f : β → AList α) (blocks : AList β)
    (d : String) {blk' : β} (hE : f blk' = []) :
    ∀ nm k, blockSub f (insertA d blk' blocks) nm k = true →
      blockSub f blocks nm k = true := by
  intro nm k hk
  rcases blockSub_insert f blocks d blk' nm k hk with ⟨_, hk'⟩ | hold
  · rw [hE] at hk'
    simp [containsKey, lookupA] at hk'
  · exact hold

/-- `_create_variable` preserves the containment invariant. -/
theorem createVariable_regInv (st : PState) (name : String) (spec : List Char)
    (mod : Option String) (n : Nat) (h : RegInv st.model) :
    RegInv (createVariable st name spec mod n).model := by
  unfold createVariable addVariable
  simp only []
  cases hcd : st.current_sys_dd with
  | none =>
    cases hcp : st.current_procedure with
    | none =>
      simp only []
      refine RegInv.of ?_ ?_ ?_ ?_ ?_ ?_ ?_ ?_ h
      · exact fun k hk => containsKey_insertA_of _ _ _ _ (containsKey_insertA_of _ _ _ _ hk)
      · exact fun k hk => hk
      · exact fun k hk => hk
      · exact fun k hk => hk
      · exact fun nm k hk => Or.inl hk
      · exact fun nm k hk => Or.inl hk
      · exact fun nm k hk => Or.inl hk
      · exact fun nm k hk => Or.inl hk
    | some p =>
      simp only []
      cases hlp : lookupA p st.model.procedures with
      | none =>
        simp only [hlp]
        refine RegInv.of ?_ ?_ ?_ ?_ ?_ ?_ ?_ ?_ h
        · exact fun k hk => containsKey_insertA_of _ _ _ _ (containsKey_insertA_of _ _ _ _ hk)
        · exact fun k hk => hk
        · exact fun k hk => hk
        · exact fun k hk => hk
        · exact fun nm k hk => Or.inl hk
        · exact fun nm k hk => Or.inl hk
        · exact fun nm k hk => Or.inl hk
        · exact fun nm k hk => Or.inl hk
      | some pr =>
        simp only [hlp]
        refine RegInv.of ?_ ?_ ?_ ?_ ?_ ?_ ?_ ?_ h
        · exact fun k hk => containsKey_insertA_of _ _ _ _ (containsKey_insertA_of _ _ _ _ hk)
        · exact fun k hk => hk
        · exact fun k hk => hk
        · exact fun k hk => containsKey_insertA_of _ _ _ _ hk
        · exact fun nm k hk => Or.inl hk
        · exact fun nm k hk => Or.inl hk
        · exact fun nm k hk => Or.inl hk
        · exact fun nm k hk => Or.inl hk
  | some d =>
    simp only []
    cases hld : lookupA d st.model.sys_data_blocks with
    | none =>
      simp only [hld]
      cases hcp : st.current_procedure with
      | none =>
        simp only []
        refine RegInv.of ?_ ?_ ?_ ?_ ?_ ?_ ?_ ?_ h
        · exact fun k hk => containsKey_insertA_of _ _ _ _ (containsKey_insertA_of _ _ _ _ hk)
        · exact fun k hk => hk
        · exact fun k hk => hk
        · exact fun k hk => hk
        · exact fun nm k hk => Or.inl hk
        · exact fun nm k hk => Or.inl hk
        · exact fun nm k hk => Or.inl hk
        · exact fun nm k hk => Or.inl hk
      | some p =>
        simp only []
        cases hlp : lookupA p st.model.procedures with
        | none =>
          simp only [hlp]
          refine RegInv.of ?_ ?_ ?_ ?_ ?_ ?_ ?_ ?_ h
          · exact fun k hk => containsKey_insertA_of _ _ _ _ (containsKey_insertA_of _ _ _ _ hk)
          · exact fun k hk => hk
          · exact fun k hk => hk
          · exact fun k hk => hk
          · exact fun nm k hk => Or.inl hk
          · exact fun nm k hk => Or.inl hk
          · exact fun nm k hk => Or.inl hk
          · exact fun nm k hk => Or.inl hk
        | some pr =>
          simp only [hlp]
          refine RegInv.of ?_ ?_ ?_ ?_ ?_ ?_ ?_ ?_ h
          · exact fun k hk => containsKey_insertA_of _ _ _ _ (containsKey_insertA_of _ _ _ _ hk)
          · exact fun k hk => hk
          · exact fun k hk => hk
          · exact fun k hk => containsKey_insertA_of _ _ _ _ hk
          · exact fun nm k hk => Or.inl hk
          · exact fun nm k hk => Or.inl hk
          · exact fun nm k hk => Or.inl hk
          · exact fun nm k hk => Or.inl hk
    | some blk =>
      simp only [hld]
      cases hcp : st.current_procedure with
      | none =>
        simp only []
        refine RegInv.of ?_ ?_ ?_ ?_ ?_ ?_ ?_ ?_ h
        · exact fun k hk => containsKey_insertA_of _ _ _ _ (containsKey_insertA_of _ _ _ _ hk)
        · exact fun k hk => hk
        · exact fun k hk => hk
        · exact fun k hk => hk
        · intro nm k hk
          refine blockSub_insert_grow _ _ _ _ hld rfl ?_ nm k hk
          exact containsKey_insertA_of _ _ _ _ (containsKey_insertA_self _ _ _)
        · intro nm k hk
          refine Or.inl (blockSub_insert_same _ _ _ hld ?_ nm k hk)
          rfl
        · intro nm k hk
          refine Or.inl (blockSub_insert_same _ _ _ hld ?_ nm k hk)
          rfl
        · exact fun nm k hk => Or.inl hk
      | some p =>
        simp only []
        cases hlp : lookupA p st.model.procedures with
        | none =>
          simp only [hlp]
          refine RegInv.of ?_ ?_ ?_ ?_ ?_ ?_ ?_ ?_ h
          · exact fun k hk => containsKey_insertA_of _ _ _ _ (containsKey_insertA_of _ _ _ _ hk)
          · exact fun k hk => hk
          · exact fun k hk => hk
          · exact fun k hk => hk
          · intro nm k hk
            refine blockSub_insert_grow _ _ _ _ hld rfl ?_ nm k hk
            exact containsKey_insertA_of _ _ _ _ (containsKey_insertA_self _ _ _)
          · intro nm k hk
            refine Or.inl (blockSub_insert_same _ _ _ hld ?_ nm k hk)
            rfl
          · intro nm k hk
            refine Or.inl (blockSub_insert_same _ _ _ hld ?_ nm k hk)
            rfl
          · exact fun nm k hk => Or.inl hk
        | some pr =>
          simp only [hlp]
          refine RegInv.of ?_ ?_ ?_ ?_ ?_ ?_ ?_ ?_ h
          · exact fun k hk => containsKey_insertA_of _ _ _ _ (containsKey_insertA_of _ _ _ _ hk)
          · exact fun k hk => hk
          · exact fun k hk => hk
          · exact fun k hk => containsKey_insertA_of _ _ _ _ hk
          · intro nm k hk
            refine blockSub_insert_grow _ _ _ _ hld rfl ?_ nm k hk
            exact containsKey_insertA_of _ _ _ _ (containsKey_insertA_self _ _ _)
          · intro nm k hk
            refine Or.inl (blockSub_insert_same _ _ _ hld ?_ nm k hk)
            rfl
          · intro nm k hk
            refine Or.inl (blockSub_insert_same _ _ _ hld ?_ nm k hk)
            rfl
          · exact fun nm k hk => Or.inl hk

end CMS2

namespace CMS2

/-- The grouped-VRBL fold preserves the containment invariant. -/
theorem foldl_createVariable_regInv (spec : List Char) (mod : Option String) (n : Nat) :
    ∀ (names : List (List Char)) (st : PState), RegInv st.model →
      RegInv (names.foldl
        (fun s nmc => createVariable s (⟨nmc⟩ : String) spec mod n) st).model := by
  intro names
  induction names with
  | nil => exact fun st h => h
  | cons x xs ih =>
    intro st h
    simp only [List.foldl_cons]
    exact ih _ (createVariable_regInv st _ spec mod n h)

/-- `_parse_vrbl_declaration` preserves the containment invariant. -/
theorem parseVrblDecl_regInv (st : PState) (s : List Char) (n : Nat)
    (h : RegInv st.model) : RegInv (parseVrblDecl st s n).model := by
  unfold parseVrblDecl
  rcases hsm : stripModifier ["(EXTDEF)", "(EXTREF)", "(LOCREF)", "(TRANSREF)"]
    (strip s) with ⟨mod, stmt⟩
  simp only [hsm]
  cases hm : extractVrblMulti stmt with
  | some pr =>
    obtain ⟨names, spec⟩ := pr
    simp only []
    exact foldl_createVariable_regInv spec mod n names st h
  | none =>
    simp only []
    cases hs : extractVrblSingle stmt with
    | some pr =>
      obtain ⟨nm, spec⟩ := pr
      simp only []
      exact createVariable_regInv st nm spec mod n h
    | none => exact h

/-- `_parse_sys_dd_start` preserves the containment invariant. -/
theorem parseSysDdStart_regInv (st : PState) (s : List Char) (n : Nat)
    (h : RegInv st.model) : RegInv (parseSysDdStart st s n).model := by
  unfold parseSysDdStart
  cases hm : matchSysDd s with
  | none => exact h
  | some name =>
    refine RegInv.of ?_ ?_ ?_ ?_ ?_ ?_ ?_ ?_ h
    · exact fun k hk => hk
    · exact fun k hk => hk
    · exact fun k hk => hk
    · exact fun k hk => hk
    · intro nm k hk
      refine Or.inl (blockSub_insert_empty _ _ _ rfl nm k hk)
    · intro nm k hk
      refine Or.inl (blockSub_insert_empty _ _ _ rfl nm k hk)
    · intro nm k hk
      refine Or.inl (blockSub_insert_empty _ _ _ rfl nm k hk)
    · exact fun nm k hk => Or.inl hk

/-- `_handle_end_sys_dd` preserves the containment invariant. -/
theorem handleEndSysDd_regInv (st : PState) (n : Nat)
    (h : RegInv st.model) : RegInv (handleEndSysDd st n).model := by
  unfold handleEndSysDd
  cases hc : st.current_sys_dd with
  | none => exact h
  | some nm0 =>
    simp only []
    cases hl : lookupA nm0 st.model.sys_data_blocks with
    | none => exact h
    | some blk =>
      simp only [hl]
      refine RegInv.of ?_ ?_ ?_ ?_ ?_ ?_ ?_ ?_ h
      · exact fun k hk => hk
      · exact fun k hk => hk
      · exact fun k hk => hk
      · exact fun k hk => hk
      · intro nm k hk
        refine Or.inl (blockSub_insert_same _ _ _ hl ?_ nm k hk)
        rfl
      · intro nm k hk
        refine Or.inl (blockSub_insert_same _ _ _ hl ?_ nm k hk)
        rfl
      · intro nm k hk
        refine Or.inl (blockSub_insert_same _ _ _ hl ?_ nm k hk)
        rfl
      · exact fun nm k hk => Or.inl hk

/-- `_parse_sys_proc_start` preserves the containment invariant. -/
theorem parseSysProcStart_regInv (st : PState) (s : List Char) (n : Nat)
    (h : RegInv st.model) : RegInv (parseSysProcStart st s n).model := by
  unfold parseSysProcStart
  simp only []
  cases hm : matchSysProc s with
  | none => exact h
  | some name =>
    refine RegInv.of ?_ ?_ ?_ ?_ ?_ ?_ ?_ ?_ h
    · exact fun k hk => hk
    · exact fun k hk => hk
    · exact fun k hk => hk
    · exact fun k hk => hk
    · exact fun nm k hk => Or.inl hk
    · exact fun nm k hk => Or.inl hk
    · exact fun nm k hk => Or.inl hk
    · intro nm k hk
      refine Or.inl (blockSub_insert_empty _ _ _ rfl nm k hk)

/-- `_handle_end_sys_proc` preserves the containment invariant. -/
theorem handleEndSysProc_regInv (st : PState) (n : Nat)
    (h : RegInv st.model) : RegInv (handleEndSysProc st n).model := by
  unfold handleEndSysProc
  cases hc : st.current_sys_proc with
  | none => exact h
  | some nm0 =>
    simp only []
    cases hl : lookupA nm0 st.model.sys_proc_blocks with
    | none => exact h
    | some blk =>
      simp only [hl]
      refine RegInv.of ?_ ?_ ?_ ?_ ?_ ?_ ?_ ?_ h
      · exact fun k hk => hk
      · exact fun k hk => hk
      · exact fun k hk => hk
      · exact fun k hk => hk
      · exact fun nm k hk => Or.inl hk
      · exact fun nm k hk => Or.inl hk
      · exact fun nm k hk => Or.inl hk
      · intro nm k hk
        refine Or.inl (blockSub_insert_same _ _ _ hl ?_ nm k hk)
        rfl

/-- `_parse_table_declaration` preserves the containment invariant. -/
theorem parseTableDecl_regInv (st : PState) (s : List Char) (n : Nat)
    (h : RegInv st.model) : RegInv (parseTableDecl st s n).model := by
  unfold parseTableDecl
  simp only []
  cases hm : extractTable (strip s) with
  | none => exact h
  | some tm =>
    simp only []
    cases hcd : st.current_sys_dd with
    | none =>
      simp only []
      refine RegInv.of ?_ ?_ ?_ ?_ ?_ ?_ ?_ ?_ h
      · exact fun k hk => hk
      · exact fun k hk => containsKey_insertA_of _ _ _ _ hk
      · exact fun k hk => hk
      · exact fun k hk => hk
      · exact fun nm k hk => Or.inl hk
      · exact fun nm k hk => Or.inl hk
      · exact fun nm k hk => Or.inl hk
      · exact fun nm k hk => Or.inl hk
    | some d =>
      simp only []
      cases hld : lookupA d st.model.sys_data_blocks with
      | none =>
        simp only [hld]
        refine RegInv.of ?_ ?_ ?_ ?_ ?_ ?_ ?_ ?_ h
        · exact fun k hk => hk
        · exact fun k hk => containsKey_insertA_of _ _ _ _ hk
        · exact fun k hk => hk
        · exact fun k hk => hk
        · exact fun nm k hk => Or.inl hk
        · exact fun nm k hk => Or.inl hk
        · exact fun nm k hk => Or.inl hk
        · exact fun nm k hk => Or.inl hk
      | some blk =>
        simp only [hld]
        refine RegInv.of ?_ ?_ ?_ ?_ ?_ ?_ ?_ ?_ h
        · exact fun k hk => hk
        · exact fun k hk => containsKey_insertA_of _ _ _ _ hk
        · exact fun k hk => hk
        · exact fun k hk => hk
        · intro nm k hk
          refine Or.inl (blockSub_insert_same _ _ _ hld ?_ nm k hk)
          rfl
        · intro nm k hk
          refine blockSub_insert_grow _ _ _ _ hld rfl ?_ nm k hk
          exact containsKey_insertA_self _ _ _
        · intro nm k hk
          refine Or.inl (blockSub_insert_same _ _ _ hld ?_ nm k hk)
          rfl
        · exact fun nm k hk => Or.inl hk

/-- `_handle_end_table` preserves the containment invariant. -/
theorem handleEndTable_regInv (st : PState) (n : Nat)
    (h : RegInv st.model) : RegInv (handleEndTable st n).model := by
  unfold handleEndTable
  cases hc : st.current_table with
  | none => exact h
  | some nm0 =>
    simp only []
    cases hl : lookupA nm0 st.model.tables with
    | none => exact h
    | some tb =>
      simp only [hl]
      refine RegInv.of ?_ ?_ ?_ ?_ ?_ ?_ ?_ ?_ h
      · exact fun k hk => hk
      · exact fun k hk => containsKey_insertA_of _ _ _ _ hk
      · exact fun k hk => hk
      · exact fun k hk => hk
      · exact fun nm k hk => Or.inl hk
      · exact fun nm k hk => Or.inl hk
      · exact fun nm k hk => Or.inl hk
      · exact fun nm k hk => Or.inl hk

/-- `_parse_field_declaration` preserves the containment invariant. -/
theorem parseFieldDecl_regInv (st : PState) (s : List Char) (n : Nat)
    (h : RegInv st.model) : RegInv (parseFieldDecl st s n).model := by
  unfold parseFieldDecl
  simp only []
  cases hm : extractField (strip s) with
  | none =>
    cases hct : st.current_table with
    | none => exact h
    | some tname => exact h
  | some fm =>
    cases hct : st.current_table with
    | none => exact h
    | some tname =>
      simp only []
      cases hl : lookupA tname st.model.tables with
      | none => exact h
      | some tb =>
        simp only [hl]
        refine RegInv.of ?_ ?_ ?_ ?_ ?_ ?_ ?_ ?_ h
        · exact fun k hk => hk
        · exact fun k hk => containsKey_insertA_of _ _ _ _ hk
        · exact fun k hk => hk
        · exact fun k hk => hk
        · exact fun nm k hk => Or.inl hk
        · exact fun nm k hk => Or.inl hk
        · exact fun nm k hk => Or.inl hk
        · exact fun nm k hk => Or.inl hk

/-- `_parse_type_declaration` preserves the containment invariant. -/
theorem parseTypeDecl_regInv (st : PState) (s : List Char) (n : Nat)
    (h : RegInv st.model) : RegInv (parseTypeDecl st s n).model := by
  unfold parseTypeDecl
  by_cases hq : hasSub ['\''] (strip s) = true
  · simp only [hq, if_true]
    cases hm : extractTypeStatus (strip s) with
    | none => exact h
    | some pr =>
      obtain ⟨nm0, rest⟩ := pr
      simp only []
      cases hcd : st.current_sys_dd with
      | none =>
        simp only []
        refine RegInv.of ?_ ?_ ?_ ?_ ?_ ?_ ?_ ?_ h
        · exact fun k hk => hk
        · exact fun k hk => hk
        · exact fun k hk => containsKey_insertA_of _ _ _ _ hk
        · exact fun k hk => hk
        · exact fun nm k hk => Or.inl hk
        · exact fun nm k hk => Or.inl hk
        · exact fun nm k hk => Or.inl hk
        · exact fun nm k hk => Or.inl hk
      | some d =>
        simp only []
        cases hld : lookupA d st.model.sys_data_blocks with
        | none =>
          simp only [hld]
          refine RegInv.of ?_ ?_ ?_ ?_ ?_ ?_ ?_ ?_ h
          · exact fun k hk => hk
          · exact fun k hk => hk
          · exact fun k hk => containsKey_insertA_of _ _ _ _ hk
          · exact fun k hk => hk
          · exact fun nm k hk => Or.inl hk
          · exact fun nm k hk => Or.inl hk
          · exact fun nm k hk => Or.inl hk
          · exact fun nm k hk => Or.inl hk
        | some blk =>
          simp only [hld]
          refine RegInv.of ?_ ?_ ?_ ?_ ?_ ?_ ?_ ?_ h
          · exact fun k hk => hk
          · exact fun k hk => hk
          · exact fun k hk => containsKey_insertA_of _ _ _ _ hk
          · exact fun k hk => hk
          · intro nm k hk
            refine Or.inl (blockSub_insert_same _ _ _ hld ?_ nm k hk)
            rfl
          · intro nm k hk
            refine Or.inl (blockSub_insert_same _ _ _ hld ?_ nm k hk)
            rfl
          · intro nm k hk
            refine blockSub_insert_grow _ _ _ _ hld rfl ?_ nm k hk
            exact containsKey_insertA_self _ _ _
          · exact fun nm k hk => Or.inl hk
  · rw [if_neg (by simpa using hq)]
    cases hm : extractTypeStructured (strip s) with
    | none => exact h
    | some pr =>
      obtain ⟨nm0, pk⟩ := pr
      simp only []
      refine RegInv.of ?_ ?_ ?_ ?_ ?_ ?_ ?_ ?_ h
      · exact fun k hk => hk
      · exact fun k hk => hk
      · exact fun k hk => containsKey_insertA_of _ _ _ _ hk
      · exact fun k hk => hk
      · exact fun nm k hk => Or.inl hk
      · exact fun nm k hk => Or.inl hk
      · exact fun nm k hk => Or.inl hk
      · exact fun nm k hk => Or.inl hk

/-- `_handle_end_type` preserves the containment invariant. -/
theorem handleEndType_regInv (st : PState) (n : Nat)
    (h : RegInv st.model) : RegInv (handleEndType st n).model := by
  unfold handleEndType
  cases hc : st.current_type with
  | none => exact h
  | some nm0 =>
    simp only []
    cases hl : lookupA nm0 st.model.types with
    | none => exact h
    | some td =>
      simp only [hl]
      refine RegInv.of ?_ ?_ ?_ ?_ ?_ ?_ ?_ ?_ h
      · exact fun k hk => hk
      · exact fun k hk => hk
      · exact fun k hk => containsKey_insertA_of _ _ _ _ hk
      · exact fun k hk => hk
      · exact fun nm k hk => Or.inl hk
      · exact fun nm k hk => Or.inl hk
      · exact fun nm k hk => Or.inl hk
      · exact fun nm k hk => Or.inl hk

/-- `_parse_procedure_declaration` preserves the containment invariant. -/
theorem parseProcDecl_regInv (st : PState) (s : List Char) (n : Nat)
    (h : RegInv st.model) : RegInv (parseProcDecl st s n).model := by
  unfold parseProcDecl
  rcases hsm : stripModifier ["(EXTDEF)", "(EXTREF)", "(LOCREF)", "(TRANSREF)"]
    (strip s) with ⟨mod, stmt⟩
  simp only [hsm]
  cases hm : extractProcedure stmt with
  | none => exact h
  | some pr =>
    obtain ⟨name, flag⟩ := pr
    simp only []
    cases hcp : st.current_sys_proc with
    | none =>
      simp only []
      refine RegInv.of ?_ ?_ ?_ ?_ ?_ ?_ ?_ ?_ h
      · exact fun k hk => hk
      · exact fun k hk => hk
      · exact fun k hk => hk
      · exact fun k hk => containsKey_insertA_of _ _ _ _ hk
      · exact fun nm k hk => Or.inl hk
      · exact fun nm k hk => Or.inl hk
      · exact fun nm k hk => Or.inl hk
      · exact fun nm k hk => Or.inl hk
    | some sp =>
      simp only []
      cases hld : lookupA sp st.model.sys_proc_blocks with
      | none =>
        simp only [hld]
        refine RegInv.of ?_ ?_ ?_ ?_ ?_ ?_ ?_ ?_ h
        · exact fun k hk => hk
        · exact fun k hk => hk
        · exact fun k hk => hk
        · exact fun k hk => containsKey_insertA_of _ _ _ _ hk
        · exact fun nm k hk => Or.inl hk
        · exact fun nm k hk => Or.inl hk
        · exact fun nm k hk => Or.inl hk
        · exact fun nm k hk => Or.inl hk
      | some blk =>
        simp only [hld]
        refine RegInv.of ?_ ?_ ?_ ?_ ?_ ?_ ?_ ?_ h
        · exact fun k hk => hk
        · exact fun k hk => hk
        · exact fun k hk => hk
        · exact fun k hk => containsKey_insertA_of _ _ _ _ hk
        · exact fun nm k hk => Or.inl hk
        · exact fun nm k hk => Or.inl hk
        · exact fun nm k hk => Or.inl hk
        · intro nm k hk
          refine blockSub_insert_grow _ _ _ _ hld rfl ?_ nm k hk
          exact containsKey_insertA_self _ _ _

/-- `_parse_exec_proc_declaration` preserves the containment invariant. -/
theorem parseExecProcDecl_regInv (st : PState) (s : List Char) (n : Nat)
    (h : RegInv st.model) : RegInv (parseExecProcDecl st s n).model := by
  unfold parseExecProcDecl
  rcases hsm : stripModifier ["(EXTDEF)", "(EXTREF)"] (strip s) with ⟨mod, stmt⟩
  simp only [hsm]
  cases hm : extractExecProc stmt with
  | none => exact h
  | some pr =>
    obtain ⟨name, g2⟩ := pr
    simp only []
    refine RegInv.of ?_ ?_ ?_ ?_ ?_ ?_ ?_ ?_ h
    · exact fun k hk => hk
    · exact fun k hk => hk
    · exact fun k hk => hk
    · exact fun k hk => containsKey_insertA_of _ _ _ _ hk
    · exact fun nm k hk => Or.inl hk
    · exact fun nm k hk => Or.inl hk
    · exact fun nm k hk => Or.inl hk
    · exact fun nm k hk => Or.inl hk

/-- `_handle_end_proc` preserves the containment invariant. -/
theorem handleEndProc_regInv (st : PState) (n : Nat)
    (h : RegInv st.model) : RegInv (handleEndProc st n).model := by
  unfold handleEndProc
  cases hc : st.current_procedure with
  | none => exact h
  | some nm0 =>
    simp only []
    cases hl : lookupA nm0 st.model.procedures with
    | none => exact h
    | some p =>
      simp only [hl]
      refine RegInv.of ?_ ?_ ?_ ?_ ?_ ?_ ?_ ?_ h
      · exact fun k hk => hk
      · exact fun k hk => hk
      · exact fun k hk => hk
      · exact fun k hk => containsKey_insertA_of _ _ _ _ hk
      · exact fun nm k hk => Or.inl hk
      · exact fun nm k hk => Or.inl hk
      · exact fun nm k hk => Or.inl hk
      · exact fun nm k hk => Or.inl hk

/-- `_parse_function_declaration` touches only the function registry, which
    the invariant does not mention. -/
theorem parseFunctionDecl_regInv (st : PState) (s : List Char) (n : Nat)
    (h : RegInv st.model) : RegInv (parseFunctionDecl st s n).model := by
  unfold parseFunctionDecl
  rcases hsm : stripModifier ["(EXTDEF)", "(EXTREF)", "(LOCREF)", "(TRANSREF)"]
    (strip s) with ⟨mod, stmt⟩
  simp only [hsm]
  cases hm : extractFunction stmt with
  | none => exact h
  | some fr =>
    obtain ⟨name, inner, g3⟩ := fr
    exact h

/-- `_handle_end_function` preserves the containment invariant. -/
theorem handleEndFunction_regInv (st : PState) (n : Nat)
    (h : RegInv st.model) : RegInv (handleEndFunction st n).model := by
  unfold handleEndFunction
  cases hc : st.current_function with
  | none => exact h
  | some nm0 =>
    simp only []
    cases hl : lookupA nm0 st.model.functions with
    | none => exact h
    | some f => exact h

/-- `_parse_cmode` preserves the containment invariant. -/
theorem parseCmode_regInv (st : PState) (s : List Char) (n : Nat)
    (h : RegInv st.model) : RegInv (parseCmode st s n).model := by
  unfold parseCmode
  by_cases hb : hasSub ['O'] (upStr s) = true
  · rw [if_pos hb]
    exact h
  · rw [if_neg (by simpa using hb)]
    exact h

end CMS2

namespace CMS2

/-- `_parse_statement` preserves the containment invariant: every branch is
    one of the handlers above or a pure flag update. -/
theorem parseStatement_regInv (st : PState) (s : List Char) (n : Nat)
    (h : RegInv st.model) : RegInv (parseStatement st s n).model := by
  unfold parseStatement parseStatementU
  generalize strip (upStr s) = u
  by_cases h1 : (hasSub "SYS-DD".data u && !(hasSub "END-SYS-DD".data u)) = true
  · rw [if_pos h1]
    exact parseSysDdStart_regInv st s n h
  rw [if_neg h1]
  by_cases h2 : hasSub "END-SYS-DD".data u = true
  · rw [if_pos h2]
    exact handleEndSysDd_regInv st n h
  rw [if_neg h2]
  by_cases h3 : (hasSub "SYS-PROC".data u && !(hasSub "END-SYS-PROC".data u)) = true
  · rw [if_pos h3]
    exact parseSysProcStart_regInv st s n h
  rw [if_neg h3]
  by_cases h4 : hasSub "END-SYS-PROC".data u = true
  · rw [if_pos h4]
    exact handleEndSysProc_regInv st n h
  rw [if_neg h4]
  by_cases h5 : (startsL "LOC-DD".data u || hasSub " LOC-DD".data u) = true
  · rw [if_pos h5]
    exact h
  rw [if_neg h5]
  by_cases h6 : hasSub "END-LOC-DD".data u = true
  · rw [if_pos h6]
    exact h
  rw [if_neg h6]
  by_cases h7 : (startsL "VRBL".data u || hasSub " VRBL ".data u || startsL "(EXTDEF) VRBL".data u || startsL "(EXTREF) VRBL".data u || startsL "(LOCREF) VRBL".data u || startsL "(TRANSREF) VRBL".data u) = true
  · rw [if_pos h7]
    exact parseVrblDecl_regInv st s n h
  rw [if_neg h7]
  by_cases h8 : (startsL "TABLE".data u || hasSub " TABLE ".data u) = true
  · rw [if_pos h8]
    exact parseTableDecl_regInv st s n h
  rw [if_neg h8]
  by_cases h9 : hasSub "END-TABLE".data u = true
  · rw [if_pos h9]
    exact handleEndTable_regInv st n h
  rw [if_neg h9]
  by_cases h10 : startsL "FIELD".data u = true
  · rw [if_pos h10]
    exact parseFieldDecl_regInv st s n h
  rw [if_neg h10]
  by_cases h11 : (startsL "TYPE".data u && !(hasSub "END-TYPE".data u)) = true
  · rw [if_pos h11]
    exact parseTypeDecl_regInv st s n h
  rw [if_neg h11]
  by_cases h12 : hasSub "END-TYPE".data u = true
  · rw [if_pos h12]
    exact handleEndType_regInv st n h
  rw [if_neg h12]
  by_cases h13 : (startsL "PROCEDURE".data u || hasSub " PROCEDURE ".data u || startsL "(EXTDEF) PROCEDURE".data u || startsL "(EXTREF) PROCEDURE".data u) = true
  · rw [if_pos h13]
    exact parseProcDecl_regInv st s n h
  rw [if_neg h13]
  by_cases h14 : (startsL "EXEC-PROC".data u || hasSub " EXEC-PROC ".data u) = true
  · rw [if_pos h14]
    exact parseExecProcDecl_regInv st s n h
  rw [if_neg h14]
  by_cases h15 : hasSub "END-PROC".data u = true
  · rw [if_pos h15]
    exact handleEndProc_regInv st n h
  rw [if_neg h15]
  by_cases h16 : (startsL "FUNCTION".data u || hasSub " FUNCTION ".data u) = true
  · rw [if_pos h16]
    exact parseFunctionDecl_regInv st s n h
  rw [if_neg h16]
  by_cases h17 : hasSub "END-FUNCTION".data u = true
  · rw [if_pos h17]
    exact handleEndFunction_regInv st n h
  rw [if_neg h17]
  by_cases h18 : startsL "CMODE".data u = true
  · rw [if_pos h18]
    exact parseCmode_regInv st s n h
  rw [if_neg h18]
  exact h

/-- The statement-draining loop preserves the containment invariant. -/
theorem drainGo_regInv : ∀ (fuel : Nat) (st : PState) (buf : List Char) (i : Nat),
    RegInv st.model → RegInv (drainGo fuel st buf i).1.model := by
  intro fuel
  induction fuel with
  | zero => exact fun st buf i h => h
  | succ f ih =>
    intro st buf i h
    unfold drainGo
    by_cases hb : buf.any (fun c => c = '$') = true
    · rw [if_pos hb]
      simp only []
      refine ih _ _ _ ?_
      by_cases he : (strip (buf.takeWhile (neChar '$'))).isEmpty = true
      · rw [if_pos he]
        exact h
      · rw [if_neg he]
        exact parseStatement_regInv _ _ _ h
    · rw [if_neg hb]
      exact h

/-- One line-processing step preserves the containment invariant. -/
theorem procLineCore_regInv (acc : PState × List Char) (p : Nat × List Char)
    (h : RegInv acc.1.model) : RegInv (procLineCore acc p).1.model := by
  rcases acc with ⟨st, buffer⟩
  rcases p with ⟨i, lineNC⟩
  unfold procLineCore
  simp only []
  by_cases he : (strip lineNC).isEmpty = true
  · rw [if_pos he]
    exact h
  · rw [if_neg he]
    exact drainGo_regInv _ _ _ _ h

/-- Folding the line processor over any line list preserves the invariant. -/
theorem foldl_procLineCore_regInv (l : List (Nat × List Char)) :
    ∀ acc : PState × List Char, RegInv acc.1.model →
      RegInv (l.foldl (fun acc p => procLineCore acc (p.1, removeComments p.2))
        acc).1.model := by
  induction l with
  | nil => exact fun acc h => h
  | cons x xs ih =>
    intro acc h
    simp only [List.foldl_cons]
    exact ih _ (procLineCore_regInv _ _ h)

/-- The empty model trivially satisfies the containment invariant. -/
theorem regInv_empty : RegInv ({} : Model) := by
  refine ⟨?_, ?_, ?_, ?_⟩ <;> intro nm k hk <;> simp [blockSub, lookupA] at hk

/-- C8: after parsing any document, every variable, table and type stored in
    a SYS-DD block's own index is also present under the same key in the
    corresponding top-level registry, and every procedure stored in a
    SYS-PROC block's index is present in the top-level procedure registry. -/
theorem claim_C8 (doc : String) : RegInv (parse doc) := by
  unfold parse parseChars
  exact foldl_procLineCore_regInv _ _ regInv_empty

/-- The C8 invariant evaluated on a concrete SYS-DD document: the variable
    ALT indexed inside block DDX is also a key of the top-level variable
    registry. -/
theorem claim_C8_witness :
    containsKey "ALT"
      (parse "DDX SYS-DD $\nVRBL ALT I 16 S $\nEND-SYS-DD DDX $").vars = true :=
  (claim_C8 "DDX SYS-DD $\nVRBL ALT I 16 S $\nEND-SYS-DD DDX $").1 "DDX" "ALT"
    (by decide)

end CMS2

namespace CMS2

/-- Dropping a prefix only removes characters. -/
theorem length_dropWhile_le {α : Type} (p : α → Bool) (l : List α) :
    (l.dropWhile p).length ≤ l.length := by
  induction l with
  | nil => exact Nat.le_refl _
  | cons x xs ih =>
    rw [List.dropWhile_cons]
    by_cases hp : p x = true
    · rw [if_pos hp]
      exact Nat.le_trans ih (Nat.le_succ _)
    · rw [if_neg hp]

/-- Stripping only removes characters. -/
theorem strip_length_le (l : List Char) : (strip l).length ≤ l.length := by
  unfold strip
  calc (((l.dropWhile pyIsSpace).reverse.dropWhile pyIsSpace).reverse).length
      = ((l.dropWhile pyIsSpace).reverse.dropWhile pyIsSpace).length :=
        List.length_reverse _
    _ ≤ (l.dropWhile pyIsSpace).reverse.length := length_dropWhile_le _ _
    _ = (l.dropWhile pyIsSpace).length := List.length_reverse _
    _ ≤ l.length := length_dropWhile_le _ _

/-- With fuel exceeding the buffer length, the statement-draining loop
    consumes every `$`: the loop terminates by exhausting the buffer, never
    by running out of fuel. -/
theorem drainGo_drained : ∀ (fuel : Nat) (st : PState) (buf : List Char) (i : Nat),
    buf.length < fuel →
      ((drainGo fuel st buf i).2.any (fun c => c = '$')) = false := by
  intro fuel
  induction fuel with
  | zero => exact fun st buf i h => absurd h (Nat.not_lt_zero _)
  | succ f ih =>
    intro st buf i hlen
    unfold drainGo
    by_cases hb : buf.any (fun c => c = '$') = true
    · rw [if_pos hb]
      simp only []
      refine ih _ _ _ ?_
      have hne : buf ≠ [] := by
        intro he
        rw [he] at hb
        simp at hb
      have hpos : 0 < buf.length := List.length_pos.mpr hne
      calc (strip ((buf.dropWhile (neChar '$')).drop 1)).length
          ≤ ((buf.dropWhile (neChar '$')).drop 1).length := strip_length_le _
        _ ≤ buf.length - 1 := by
            rw [List.length_drop]
            exact Nat.sub_le_sub_right (length_dropWhile_le _ _) 1
        _ < buf.length := Nat.sub_lt hpos (by decide)
        _ ≤ f := Nat.lt_succ_iff.mp hlen
    · rw [if_neg hb]
      simp only [Bool.not_eq_true] at hb
      exact hb

/-- C9: the parser is total and error-silent.  Every declaration handler
    whose internal pattern fails returns the state exactly unchanged (the
    statement is silently skipped and contributes no entity); the
    statement-draining loop always terminates by exhausting its buffer (the
    fuel bound `length + 1` used by the per-line step is never reached); and
    an arbitrarily malformed document parses to the empty model rather than
    an error.  Totality itself holds by construction: every embedded
    function is a total Lean function. -/
theorem claim_C9 :
    (∀ (st : PState) (s : List Char) (n : Nat),
      matchSysDd s = none → parseSysDdStart st s n = st) ∧
    (∀ (st : PState) (s : List Char) (n : Nat),
      matchSysProc s = none → parseSysProcStart st s n = st) ∧
    (∀ (st : PState) (s : List Char) (n : Nat),
      extractVrblMulti (stripModifier ["(EXTDEF)", "(EXTREF)", "(LOCREF)", "(TRANSREF)"]
        (strip s)).2 = none →
      extractVrblSingle (stripModifier ["(EXTDEF)", "(EXTREF)", "(LOCREF)", "(TRANSREF)"]
        (strip s)).2 = none →
      parseVrblDecl st s n = st) ∧
    (∀ (st : PState) (s : List Char) (n : Nat),
      extractTable (strip s) = none → parseTableDecl st s n = st) ∧
    (∀ (st : PState) (s : List Char) (n : Nat),
      extractField (strip s) = none → parseFieldDecl st s n = st) ∧
    (∀ (st : PState) (s : List Char) (n : Nat),
      hasSub ['\''] (strip s) = true → extractTypeStatus (strip s) = none →
      parseTypeDecl st s n = st) ∧
    (∀ (st : PState) (s : List Char) (n : Nat),
      hasSub ['\''] (strip s) = false → extractTypeStructured (strip s) = none →
      parseTypeDecl st s n = st) ∧
    (∀ (st : PState) (s : List Char) (n : Nat),
      extractProcedure (stripModifier ["(EXTDEF)", "(EXTREF)", "(LOCREF)", "(TRANSREF)"]
        (strip s)).2 = none →
      parseProcDecl st s n = st) ∧
    (∀ (st : PState) (s : List Char) (n : Nat),
      extractExecProc (stripModifier ["(EXTDEF)", "(EXTREF)"] (strip s)).2 = none →
      parseExecProcDecl st s n = st) ∧
    (∀ (st : PState) (s : List Char) (n : Nat),
      extractFunction (stripModifier ["(EXTDEF)", "(EXTREF)", "(LOCREF)", "(TRANSREF)"]
        (strip s)).2 = none →
      parseFunctionDecl st s n = st) ∧
    (∀ (st : PState) (buf : List Char) (i : Nat),
      ((drainGo (buf.length + 1) st buf i).2.any (fun c => c = '$')) = false) ∧
    parse "@#%^&! ((($ $$ END $??" = ({} : Model) := by
  refine ⟨?_, ?_, ?_, ?_, ?_, ?_, ?_, ?_, ?_, ?_, ?_, ?_⟩
  · intro st s n hm
    unfold parseSysDdStart
    rw [hm]
  · intro st s n hm
    unfold parseSysProcStart
    simp only [hm]
  · intro st s n hm hs
    unfold parseVrblDecl
    rcases hsm : stripModifier ["(EXTDEF)", "(EXTREF)", "(LOCREF)", "(TRANSREF)"]
      (strip s) with ⟨mod, stmt⟩
    rw [hsm] at hm hs
    simp only [hsm, hm, hs]
  · intro st s n hm
    unfold parseTableDecl
    simp only [hm]
  · intro st s n hm
    unfold parseFieldDecl
    simp only [hm]
  · intro st s n hq hm
    unfold parseTypeDecl
    simp only [hq, if_true, hm]
  · intro st s n hq hm
    unfold parseTypeDecl
    simp only [hq, Bool.false_eq_true, if_false, hm]
  · intro st s n hm
    unfold parseProcDecl
    rcases hsm : stripModifier ["(EXTDEF)", "(EXTREF)", "(LOCREF)", "(TRANSREF)"]
      (strip s) with ⟨mod, stmt⟩
    rw [hsm] at hm
    simp only [hsm, hm]
  · intro st s n hm
    unfold parseExecProcDecl
    rcases hsm : stripModifier ["(EXTDEF)", "(EXTREF)"] (strip s) with ⟨mod, stmt⟩
    rw [hsm] at hm
    simp only [hsm, hm]
  · intro st s n hm
    unfold parseFunctionDecl
    rcases hsm : stripModifier ["(EXTDEF)", "(EXTREF)", "(LOCREF)", "(TRANSREF)"]
      (strip s) with ⟨mod, stmt⟩
    rw [hsm] at hm
    simp only [hsm, hm]
  · intro st buf i
    exact drainGo_drained _ st buf i (Nat.lt_succ_self _)
  · rfl

/-- The skip behaviour on a concrete malformed statement: `TABLE` with no
    name fails the table pattern and leaves the initial state untouched. -/
theorem claim_C9_witness :
    parseTableDecl ({} : PState) "TABLE".data 0 = ({} : PState) :=
  claim_C9.2.2.2.1 {} "TABLE".data 0 (by decide)

end CMS2
